import Mathlib

/-!
Verification of the shape-transcoding logic of a react-admin ↔ Strapi v4 REST
data provider (src/index.ts).  JavaScript values are shallowly embedded as the
inductive type `JV`; the recursive converters of the source are embedded as
fuel-indexed evaluators returning `Option` (with `none` modelling both fuel
exhaustion and a JavaScript `TypeError`).
-/

/-- A JavaScript/JSON value.  `jsUndefined` is JavaScript's `undefined`; `file`
models a DOM `File` instance (only its name is relevant to the code). -/
inductive JV where
  | jsUndefined
  | null
  | bool (b : Bool)
  | num (n : Int)
  | str (s : String)
  | arr (elems : List JV)
  | obj (fields : List (String × JV))
  | file (name : String)
deriving Repr

mutual

/-- Boolean equality on `JV` (decidable equality is derived from it below). -/
def JV.beq : JV → JV → Bool
  | .jsUndefined, .jsUndefined => true
  | .null, .null => true
  | .bool a, .bool b => a == b
  | .num a, .num b => a == b
  | .str a, .str b => a == b
  | .arr a, .arr b => beqElems a b
  | .obj a, .obj b => beqFields a b
  | .file a, .file b => a == b
  | _, _ => false

def beqElems : List JV → List JV → Bool
  | [], [] => true
  | a :: as, b :: bs => JV.beq a b && beqElems as bs
  | _, _ => false

def beqFields : List (String × JV) → List (String × JV) → Bool
  | [], [] => true
  | (k, v) :: as, (k', v') :: bs => k == k' && JV.beq v v' && beqFields as bs
  | _, _ => false

end

mutual

theorem JV.beq_iff : ∀ a b : JV, JV.beq a b = true ↔ a = b
  | a, b => by
    cases a <;> cases b <;>
      simp only [JV.beq, beq_iff_eq, JV.bool.injEq,
        JV.num.injEq, JV.str.injEq, JV.arr.injEq, JV.obj.injEq, JV.file.injEq,
        Bool.false_eq_true, iff_self, reduceCtorEq] <;>
      first
        | rfl
        | exact beqElems_iff _ _
        | exact beqFields_iff _ _

theorem beqElems_iff : ∀ a b : List JV, beqElems a b = true ↔ a = b
  | [], [] => by simp [beqElems]
  | a :: as, b :: bs => by
    simp only [beqElems, Bool.and_eq_true, List.cons.injEq]
    exact and_congr (JV.beq_iff a b) (beqElems_iff as bs)
  | [], _ :: _ => by simp [beqElems]
  | _ :: _, [] => by simp [beqElems]

theorem beqFields_iff : ∀ a b : List (String × JV), beqFields a b = true ↔ a = b
  | [], [] => by simp [beqFields]
  | (k, v) :: as, (k', v') :: bs => by
    simp only [beqFields, Bool.and_eq_true, List.cons.injEq, Prod.mk.injEq, beq_iff_eq]
    exact and_congr (and_congr Iff.rfl (JV.beq_iff v v')) (beqFields_iff as bs)
  | [], _ :: _ => by simp [beqFields]
  | _ :: _, [] => by simp [beqFields]

end

instance : DecidableEq JV := fun a b => decidable_of_iff _ (JV.beq_iff a b)

/-- Field lookup in an object's field list; absent keys give `undefined`.
JavaScript objects have unique keys, which all constructions below maintain. -/
def getF : List (String × JV) → String → JV
  | [], _ => .jsUndefined
  | (k, v) :: rest, key => if k = key then v else getF rest key

/-- JavaScript property assignment `o[key] = v`: overwrite in place if the key
exists, append otherwise (insertion order preserved, keys kept unique). -/
def setKey : List (String × JV) → String → JV → List (String × JV)
  | [], key, v => [(key, v)]
  | (k, w) :: rest, key, v =>
    if k = key then (key, v) :: rest else (k, w) :: setKey rest key v

/-- JavaScript truthiness. -/
def JV.truthy : JV → Bool
  | .jsUndefined => false
  | .null => false
  | .bool b => b
  | .num n => n != 0
  | .str s => s != ""
  | .arr _ => true
  | .obj _ => true
  | .file _ => true

/-- `typeof v === "object"` (true for `null`, arrays, objects and `File`
instances; false for `undefined` and primitives). -/
def JV.typeofObject : JV → Bool
  | .null => true
  | .arr _ => true
  | .obj _ => true
  | .file _ => true
  | _ => false

/-- `Array.isArray`. -/
def JV.isArr : JV → Bool
  | .arr _ => true
  | _ => false

/-- Optional-chained property access `v?.k`: `undefined` when the base is
`null`/`undefined`, the stored value (or `undefined`) on objects, and
`undefined` on primitives (which carry none of the properties the code reads). -/
def JV.oc : JV → String → JV
  | .obj fs, k => getF fs k
  | _, _ => .jsUndefined

/-- Strict property access `v.k`, which throws (`none`) when the base is
`null`/`undefined`. -/
def JV.sget : JV → String → Option JV
  | .null, _ => none
  | .jsUndefined, _ => none
  | .obj fs, k => some (getF fs k)
  | _, _ => some .jsUndefined

/-- `v[0]` on a value already known to be an array (`[] [0]` is `undefined`). -/
def JV.idx0 : JV → JV
  | .arr (e :: _) => e
  | _ => .jsUndefined

/-- Pairs `("0", v0), ("1", v1), …` for `Object.keys` on an array. -/
def idxPairs (i : Nat) : List JV → List (String × JV)
  | [] => []
  | v :: rest => (toString i, v) :: idxPairs (i + 1) rest

/-- `Object.keys` together with the corresponding values.  Throws (`none`) on
`null`/`undefined`; on strings it enumerates character indices; on other
primitives it is empty. -/
def keyVals : JV → Option (List (String × JV))
  | .null => none
  | .jsUndefined => none
  | .obj fs => some fs
  | .arr es => some (idxPairs 0 es)
  | .str s => some (idxPairs 0 (s.toList.map (fun c => .str (String.mk [c]))))
  | _ => some []

/-- `for (const key in v)`: like `Object.keys` but it does not throw on
`null`/`undefined` (zero iterations). -/
def forInPairs (v : JV) : List (String × JV) :=
  match v with
  | .null => []
  | .jsUndefined => []
  | _ => (keyVals v).getD []

/-- The `OPERATORS` table of src/index.ts (lines 7–12), looked up with
`key.slice(-4)`. -/
def OPERATORS : List (String × String) :=
  [("_gte", "$gte"), ("_lte", "$lte"), ("_neq", "$ne"), ("_q", "$contains")]

/-- `OPERATORS[suffix]`: `none` is JavaScript `undefined` (falsy). -/
def operatorOf (suffix : String) : Option String :=
  (OPERATORS.find? (fun p => p.1 = suffix)).map (·.2)

/-- A `forEach` loop over the key/value pairs of an object that computes, for
each pair, an output key and value (`E`, which may fail) and assigns the
result into an accumulator object, exactly as the source's loops assign into
`filters` / `newAttributes` / `newObject`. -/
def entryFold (E : String → JV → Option (String × JV))
    (acc : List (String × JV)) : List (String × JV) → Option (List (String × JV))
  | [] => some acc
  | kv :: rest => do
    let e ← E kv.1 kv.2
    entryFold E (setKey acc e.1 e.2) rest

/-- The body of the `forEach` in `raFilterToStrapi`: for one key/value pair it
produces the key assigned in `filters` and the value written there; `recur`
is the recursive call on nested values (`raFilterToStrapi` at lower fuel).
Case order as in the source: `typeof === "object"` recursion first, then the
`_q` suffix, then the literal key `id`, then the 4-character operator
suffixes, then the default `$eq`. -/
def raFilterEntry (recur : JV → Option JV) (k : String) (v : JV) :
    Option (String × JV) :=
  if v.typeofObject then do
    let r ← recur v
    pure (k, r)
  else if k.takeRight 2 = "_q" then
    pure (k.dropRight 2, .obj [("$containsi", v)])
  else if k = "id" then
    pure ("id", .obj [("$in", v)])
  else
    match operatorOf (k.takeRight 4) with
    | some op => pure (k.dropRight 4, .obj [(op, v)])
    | none => pure (k, .obj [("$eq", v)])

/-- `raFilterToStrapi` (src/index.ts lines 108–141), fuel-indexed.
`if (!raFilter) return null`; otherwise each key of the filter object is
translated by `raFilterEntry` and assigned into the result object. -/
def raFilterToStrapi : Nat → JV → Option JV
  | 0, _ => none
  | fuel + 1, raFilter =>
    if !raFilter.truthy then some .null
    else do
      let kvs ← keyVals raFilter
      let fields ← entryFold (raFilterEntry (fun v => raFilterToStrapi fuel v)) [] kvs
      pure (.obj fields)

theorem getF_setKey_same (l : List (String × JV)) (k : String) (v : JV) :
    getF (setKey l k v) k = v := by
  induction l with
  | nil => simp [setKey, getF]
  | cons kv rest ih =>
    obtain ⟨k', w⟩ := kv
    by_cases h : k' = k
    · simp [setKey, h, getF]
    · simp [setKey, h, getF, ih]

theorem getF_setKey_other (l : List (String × JV)) (k : String) (v : JV)
    (k' : String) (h : k' ≠ k) : getF (setKey l k v) k' = getF l k' := by
  have h' : ¬(k = k') := fun hc => h hc.symm
  induction l with
  | nil => simp [setKey, getF, h']
  | cons kv rest ih =>
    obtain ⟨k0, w⟩ := kv
    by_cases h0 : k0 = k
    · subst h0
      simp [setKey, getF, h']
    · by_cases h1 : k0 = k'
      · subst h1
        simp [setKey, h0, getF]
      · simp [setKey, h0, getF, h1, ih]

theorem entryFold_success (E : String → JV → Option (String × JV))
    (kvs : List (String × JV)) (acc final : List (String × JV))
    (h : entryFold E acc kvs = some final) :
    ∀ kv ∈ kvs, ∃ e, E kv.1 kv.2 = some e := by
  induction kvs generalizing acc with
  | nil => intro kv hm; cases hm
  | cons kv0 rest ih =>
    intro kv hm
    simp only [entryFold, Option.bind_eq_bind, Option.bind_eq_some] at h
    obtain ⟨e0, he0, hrest⟩ := h
    rcases List.mem_cons.mp hm with heq | hmem
    · exact ⟨e0, heq ▸ he0⟩
    · exact ih _ hrest kv hmem

theorem entryFold_preserves (E : String → JV → Option (String × JV))
    (kvs : List (String × JV)) (acc final : List (String × JV)) (κ : String)
    (h : entryFold E acc kvs = some final)
    (hκ : ∀ kv ∈ kvs, ∀ e, E kv.1 kv.2 = some e → e.1 ≠ κ) :
    getF final κ = getF acc κ := by
  induction kvs generalizing acc with
  | nil =>
    simp only [entryFold, Option.some.injEq] at h
    rw [h]
  | cons kv0 rest ih =>
    simp only [entryFold, Option.bind_eq_bind, Option.bind_eq_some] at h
    obtain ⟨e0, he0, hrest⟩ := h
    have hne : e0.1 ≠ κ := hκ kv0 (List.mem_cons_self _ _) e0 he0
    rw [ih _ hrest (fun kv hm e he => hκ kv (List.mem_cons_of_mem _ hm) e he)]
    exact getF_setKey_other _ _ _ _ (fun hc => hne hc.symm)

theorem entryFold_lookup (E : String → JV → Option (String × JV))
    (kvs : List (String × JV)) (acc final : List (String × JV))
    (k : String) (v : JV) (e : String × JV)
    (h : entryFold E acc kvs = some final)
    (hm : (k, v) ∈ kvs)
    (he : E k v = some e)
    (hnd : (kvs.map (fun kv => (E kv.1 kv.2).map Prod.fst)).Nodup) :
    getF final e.1 = e.2 := by
  induction kvs generalizing acc with
  | nil => cases hm
  | cons kv0 rest ih =>
    simp only [entryFold, Option.bind_eq_bind, Option.bind_eq_some] at h
    obtain ⟨e0, he0, hrest⟩ := h
    simp only [List.map_cons, List.nodup_cons, List.mem_map] at hnd
    obtain ⟨hnotin, hndrest⟩ := hnd
    rcases List.mem_cons.mp hm with heq | hmem
    · have hkv : kv0 = (k, v) := heq.symm
      subst hkv
      have hee : e = e0 := by
        rw [he] at he0
        exact Option.some.inj he0
      subst hee
      have hκ : ∀ kv ∈ rest, ∀ e', E kv.1 kv.2 = some e' → e'.1 ≠ e.1 := by
        intro kv hmr e' he' hc
        exact hnotin ⟨kv, hmr, by simp [he', he, hc]⟩
      rw [entryFold_preserves E rest _ final e.1 hrest hκ]
      exact getF_setKey_same _ _ _
    · exact ih _ hrest hmem hndrest

set_option maxHeartbeats 1000000 in
/-- C1 (amended): for a falsy filter input the translator returns `null`; for
an object filter, provided the produced field names are pairwise distinct,
each key/value pair is translated by the source's case analysis — a value of
JavaScript type "object" (which includes arrays and `null`) recurses first; a
key ending in `_q` produces `{<field>: {$containsi: value}}` with the
2-character suffix stripped; otherwise the key `id` produces
`{id: {$in: value}}`; keys ending in `_gte`/`_lte`/`_neq` produce the
corresponding operator object with the 4-character suffix stripped; any other
key produces `{<key>: {$eq: value}}`.  (The original claim's "the key id
always produces {id: {$in: value}}" fails when the value of `id` is an object
or array, because the `typeof === "object"` recursion is checked first: see
the counterexample.) -/
theorem raFilterToStrapi_cases (fuel : Nat) :
    (∀ raFilter : JV, raFilter.truthy = false →
      raFilterToStrapi (fuel + 1) raFilter = some .null) ∧
    (∀ fields out, raFilterToStrapi (fuel + 1) (.obj fields) = some out →
      (fields.map (fun kv =>
        (raFilterEntry (fun v => raFilterToStrapi fuel v) kv.1 kv.2).map
          Prod.fst)).Nodup →
      ∃ ofields, out = JV.obj ofields ∧
        ∀ k v, (k, v) ∈ fields →
          ((v.typeofObject = true →
              ∃ r, raFilterToStrapi fuel v = some r ∧ getF ofields k = r) ∧
           (v.typeofObject = false → k.takeRight 2 = "_q" →
              getF ofields (k.dropRight 2) = .obj [("$containsi", v)]) ∧
           (v.typeofObject = false → k.takeRight 2 ≠ "_q" → k = "id" →
              getF ofields "id" = .obj [("$in", v)]) ∧
           (∀ op, v.typeofObject = false → k.takeRight 2 ≠ "_q" → k ≠ "id" →
              operatorOf (k.takeRight 4) = some op →
              getF ofields (k.dropRight 4) = .obj [(op, v)]) ∧
           (v.typeofObject = false → k.takeRight 2 ≠ "_q" → k ≠ "id" →
              operatorOf (k.takeRight 4) = none →
              getF ofields k = .obj [("$eq", v)]))) := by
  constructor
  · intro raFilter h
    cases raFilter <;> simp_all [raFilterToStrapi, JV.truthy]
  · intro fields out hev hnd
    have htr : (JV.obj fields).truthy = true := rfl
    simp only [raFilterToStrapi, htr, Bool.not_true, Bool.false_eq_true, if_false,
      keyVals, Option.pure_def, Option.bind_eq_bind, Option.some_bind,
      Option.bind_eq_some, Option.some.injEq] at hev
    obtain ⟨ofields, hfold, hout⟩ := hev
    refine ⟨ofields, hout.symm, ?_⟩
    intro k v hm
    have hsucc := entryFold_success _ _ _ _ hfold (k, v) hm
    obtain ⟨e, he⟩ := hsucc
    have hlook := entryFold_lookup _ _ _ _ k v e hfold hm he hnd
    refine ⟨?_, ?_, ?_, ?_, ?_⟩
    · intro hobj
      rw [raFilterEntry, if_pos hobj] at he
      simp only [Option.pure_def, Option.bind_eq_bind, Option.bind_eq_some,
        Option.some.injEq] at he
      obtain ⟨r, hr, hre⟩ := he
      obtain rfl : e = (k, r) := hre.symm
      exact ⟨r, hr, hlook⟩
    · intro hobj hq
      rw [raFilterEntry, if_neg (by simp [hobj]), if_pos hq, Option.pure_def] at he
      obtain rfl : e = (k.dropRight 2, .obj [("$containsi", v)]) :=
        (Option.some.inj he).symm
      exact hlook
    · intro hobj hq hid
      rw [raFilterEntry, if_neg (by simp [hobj]), if_neg hq, if_pos hid,
        Option.pure_def] at he
      obtain rfl : e = ("id", .obj [("$in", v)]) := (Option.some.inj he).symm
      exact hlook
    · intro op hobj hq hid hop
      rw [raFilterEntry, if_neg (by simp [hobj]), if_neg hq, if_neg hid, hop] at he
      rw [Option.pure_def] at he
      have hee : e = (k.dropRight 4, .obj [(op, v)]) := (Option.some.inj he).symm
      rw [hee] at hlook
      simpa using hlook
    · intro hobj hq hid hop
      rw [raFilterEntry, if_neg (by simp [hobj]), if_neg hq, if_neg hid, hop] at he
      rw [Option.pure_def] at he
      have hee : e = (k, .obj [("$eq", v)]) := (Option.some.inj he).symm
      rw [hee] at hlook
      simpa using hlook

/-- Witness for C1: the amended theorem applied to the concrete filter
`{title_q: "cat", views_gte: 3, id: 7, nested: {x: 1}, plain: "y"}`. -/
theorem raFilterToStrapi_cases_witness :
    getF [("title", .obj [("$containsi", .str "cat")]),
          ("views", .obj [("$gte", .num 3)]),
          ("id", .obj [("$in", .num 7)]),
          ("nested", .obj [("x", .obj [("$eq", .num 1)])]),
          ("plain", .obj [("$eq", .str "y")])] "title"
      = JV.obj [("$containsi", .str "cat")] := by
  have h := (raFilterToStrapi_cases 1).2
    [("title_q", .str "cat"), ("views_gte", .num 3), ("id", .num 7),
     ("nested", .obj [("x", .num 1)]), ("plain", .str "y")]
    (.obj [("title", .obj [("$containsi", .str "cat")]),
           ("views", .obj [("$gte", .num 3)]),
           ("id", .obj [("$in", .num 7)]),
           ("nested", .obj [("x", .obj [("$eq", .num 1)])]),
           ("plain", .obj [("$eq", .str "y")])])
    (by decide) (by decide)
  obtain ⟨ofields, hof, hcases⟩ := h
  obtain rfl : ofields =
      [("title", JV.obj [("$containsi", .str "cat")]),
       ("views", .obj [("$gte", .num 3)]),
       ("id", .obj [("$in", .num 7)]),
       ("nested", .obj [("x", .obj [("$eq", .num 1)])]),
       ("plain", .obj [("$eq", .str "y")])] := by
    injection hof with h'
    exact h'.symm
  exact (hcases "title_q" (.str "cat") (by decide)).2.1 (by decide) (by decide)

/-- Counterexample to C1 as stated: the key `id` does not always produce
`{id: {$in: value}}` — when its value is an array (the batch-fetch
convention), the `typeof === "object"` branch recurses into the array first,
producing `{id: {"0": {$eq: 1}}}` for the filter `{id: [1]}`. -/
theorem raFilterToStrapi_id_array_counterexample :
    raFilterToStrapi 5 (.obj [("id", .arr [.num 1])])
      = some (.obj [("id", .obj [("0", .obj [("$eq", .num 1)])])]) ∧
    raFilterToStrapi 5 (.obj [("id", .arr [.num 1])])
      ≠ some (.obj [("id", .obj [("$in", .arr [.num 1])])]) := by
  exact ⟨by decide, by decide⟩

/-- The fields contributed by a JavaScript object spread `{...v}`: objects
spread their fields, strings their character indices, `null`/`undefined`
nothing. -/
def spreadFields (v : JV) : List (String × JV) :=
  forInPairs v

/-- Object-literal construction `{<base fields>, ...v}`: the spread fields are
assigned over the base in order (later keys overwrite). -/
def mkSpread (base : List (String × JV)) (v : JV) : List (String × JV) :=
  (spreadFields v).foldl (fun acc kv => setKey acc kv.1 kv.2) base

/-- One element of the media-collection map, src/index.ts lines 51–54:
`(image) => ({id: image.id, ...image.attributes})`. -/
def mediaItem (image : JV) : Option JV := do
  let idv ← image.sget "id"
  let attrs ← image.sget "attributes"
  pure (.obj (mkSpread [("id", idv)] attrs))

/-- The map body of src/index.ts line 62: `(object) => object.id`. -/
def idOf (object : JV) : Option JV :=
  object.sget "id"

/-- `strapiObjectToRa` (src/index.ts lines 29–32):
`{id: object.id, ...strapiAttributesToRa(object.attributes)}`; `attrsToRa` is
`strapiAttributesToRa` at lower fuel. -/
def strapiObjectToRaW (attrsToRa : JV → Option JV) (object : JV) : Option JV := do
  let idv ← object.sget "id"
  let attrsv ← object.sget "attributes"
  let flat ← attrsToRa attrsv
  pure (.obj (mkSpread [("id", idv)] flat))

/-- `strapiArrayToRa` (src/index.ts lines 19–22): if `array[0]?.attributes` is
truthy every element goes through `strapiObjectToRa`, otherwise every element
goes through `strapiAttributesToRa`. -/
def strapiArrayToRaW (attrsToRa : JV → Option JV) (array : List JV) :
    Option (List JV) :=
  if ((JV.arr array).idx0.oc "attributes").truthy then
    array.mapM (fun object => strapiObjectToRaW attrsToRa object)
  else
    array.mapM attrsToRa

/-- The body of the `forEach` in `strapiAttributesToRa` (src/index.ts lines
42–76) for a single attribute value, following the source's sequence of `if`
statements on `newAttributes[key]` (here the successively updated value). -/
def processAttr (attrsToRa : JV → Option JV) (v : JV) : Option JV := do
  let n1 ← match v with
    | .arr es => (strapiArrayToRaW attrsToRa es).map .arr
    | _ => pure v
  let d := v.oc "data"
  if d.isArr && ((d.idx0.oc "attributes").oc "mime").truthy then
    match d with
    | .arr ds => (ds.mapM mediaItem).map .arr
    | _ => pure n1
  else do
    let n2 ← if d.isArr && !((d.idx0.oc "attributes").oc "mime").truthy then
        match d with
        | .arr ds => (ds.mapM idOf).map .arr
        | _ => pure n1
      else pure n1
    let n3 := if (d.oc "id").truthy && !(((d.oc "attributes").oc "mime").truthy)
      then d.oc "id" else n2
    let n4 := if d = .null then .str "" else n3
    let n5 ← if (v.oc "id").truthy then attrsToRa n4 else pure n4
    if ((d.oc "attributes").oc "mime").truthy then do
      let dd ← n5.sget "data"
      strapiObjectToRaW attrsToRa dd
    else pure n5

/-- `strapiAttributesToRa` (src/index.ts lines 40–79), fuel-indexed driver:
`Object.keys(attributes).forEach` assigning the processed value per key. -/
def strapiAttributesToRa : Nat → JV → Option JV
  | 0, _ => none
  | fuel + 1, attributes => do
    let kvs ← keyVals attributes
    let fields ← entryFold
      (fun k v =>
        (processAttr (fun x => strapiAttributesToRa fuel x) v).map
          (fun nv => (k, nv))) [] kvs
    pure (.obj fields)

/-- `strapiObjectToRa` at a given fuel. -/
def strapiObjectToRa (fuel : Nat) : JV → Option JV :=
  strapiObjectToRaW (strapiAttributesToRa fuel)

/-- `strapiArrayToRa` at a given fuel. -/
def strapiArrayToRa (fuel : Nat) : List JV → Option (List JV) :=
  strapiArrayToRaW (strapiAttributesToRa fuel)

/-- The `components` list of `raEmptyAttributesToStrapi`
(src/index.ts line 88). -/
def components : List String := ["stages"]

/-- `raEmptyAttributesToStrapi` (src/index.ts lines 86–101): per key, `""` is
replaced by `null`; keys in `components` are wrapped as `{data: value}`. -/
def raEmptyAttributesToStrapi (object : JV) : Option JV := do
  let kvs ← keyVals object
  let fields ← entryFold
    (fun k v =>
      let newValue := if v = .str "" then .null else v
      if components.contains k then some (k, .obj [("data", newValue)])
      else some (k, newValue)) [] kvs
  pure (.obj fields)

@[simp] theorem JV.truthy_jsUndefined : JV.truthy .jsUndefined = false := rfl

@[simp] theorem JV.truthy_null : JV.truthy .null = false := rfl

@[simp] theorem JV.truthy_arr (es : List JV) : (JV.arr es).truthy = true := rfl

@[simp] theorem JV.truthy_obj (fs : List (String × JV)) :
    (JV.obj fs).truthy = true := rfl

@[simp] theorem JV.truthy_str (s : String) : (JV.str s).truthy = (s != "") := rfl

@[simp] theorem JV.truthy_num (n : Int) : (JV.num n).truthy = (n != 0) := rfl

@[simp] theorem JV.oc_jsUndefined (k : String) : JV.jsUndefined.oc k = .jsUndefined := rfl

@[simp] theorem JV.oc_null (k : String) : JV.null.oc k = .jsUndefined := rfl

@[simp] theorem JV.oc_arr (es : List JV) (k : String) :
    (JV.arr es).oc k = .jsUndefined := rfl

@[simp] theorem JV.oc_str (s k : String) : (JV.str s).oc k = .jsUndefined := rfl

@[simp] theorem JV.oc_num (n : Int) (k : String) : (JV.num n).oc k = .jsUndefined := rfl

@[simp] theorem JV.oc_obj (fs : List (String × JV)) (k : String) :
    (JV.obj fs).oc k = getF fs k := rfl

@[simp] theorem JV.isArr_arr (es : List JV) : (JV.arr es).isArr = true := rfl

@[simp] theorem JV.isArr_jsUndefined : JV.jsUndefined.isArr = false := rfl

@[simp] theorem JV.isArr_null : JV.null.isArr = false := rfl

@[simp] theorem JV.isArr_obj (fs : List (String × JV)) :
    (JV.obj fs).isArr = false := rfl

@[simp] theorem JV.isArr_str (s : String) : (JV.str s).isArr = false := rfl

@[simp] theorem JV.isArr_num (n : Int) : (JV.num n).isArr = false := rfl

@[simp] theorem JV.sget_obj (fs : List (String × JV)) (k : String) :
    (JV.obj fs).sget k = some (getF fs k) := rfl

@[simp] theorem JV.sget_arr (es : List JV) (k : String) :
    (JV.arr es).sget k = some .jsUndefined := rfl

@[simp] theorem JV.idx0_nil : (JV.arr []).idx0 = .jsUndefined := rfl

@[simp] theorem JV.idx0_cons (e : JV) (es : List JV) :
    (JV.arr (e :: es)).idx0 = e := rfl

/-- Scalars (including `null`) pass through `processAttr` unchanged: none of
the source's `if` branches applies to a primitive attribute value. -/
theorem processAttr_scalar_null (F : JV → Option JV) :
    processAttr F .null = some .null := rfl

theorem processAttr_scalar_num (F : JV → Option JV) (n : Int) :
    processAttr F (.num n) = some (.num n) := rfl

theorem processAttr_scalar_str (F : JV → Option JV) (s : String) :
    processAttr F (.str s) = some (.str s) := rfl

theorem processAttr_scalar_bool (F : JV → Option JV) (b : Bool) :
    processAttr F (.bool b) = some (.bool b) := rfl

/-- Lines 67–69: an attribute value whose `data` member is `null` flattens to
the empty string (provided the value has no truthy `id`, which would trigger
the line-70 recursion). -/
theorem processAttr_data_null (F : JV → Option JV) (fields : List (String × JV))
    (hd : getF fields "data" = .null)
    (hid : (getF fields "id").truthy = false) :
    processAttr F (.obj fields) = some (.str "") := by
  simp [processAttr, hd, hid]

/-- Lines 64–66: a single non-media relation flattens to the bare id. -/
theorem processAttr_rel_single (F : JV → Option JV)
    (fields dfs : List (String × JV))
    (hd : getF fields "data" = .obj dfs)
    (hdid : (getF dfs "id").truthy = true)
    (hmime : ((getF dfs "attributes").oc "mime").truthy = false)
    (hid : (getF fields "id").truthy = false) :
    processAttr F (.obj fields) = some (getF dfs "id") := by
  simp [processAttr, hd, hdid, hmime, hid]

/-- Lines 73–75: a single media relation flattens through `strapiObjectToRa`
applied to the `data` member. -/
theorem processAttr_media_single (F : JV → Option JV)
    (fields dfs : List (String × JV))
    (hd : getF fields "data" = .obj dfs)
    (hmime : ((getF dfs "attributes").oc "mime").truthy = true)
    (hid : (getF fields "id").truthy = false) :
    processAttr F (.obj fields) = strapiObjectToRaW F (.obj dfs) := by
  simp [processAttr, hd, hmime, hid]

/-- Lines 47–57: a `data` array whose first element carries
`attributes.mime` maps every element to `{id: el.id, ...el.attributes}` and
returns early. -/
theorem processAttr_media_many (F : JV → Option JV)
    (fields : List (String × JV)) (ds : List JV)
    (hd : getF fields "data" = .arr ds)
    (hm0 : (((JV.arr ds).idx0.oc "attributes").oc "mime").truthy = true) :
    processAttr F (.obj fields) = (ds.mapM mediaItem).map .arr := by
  simp [processAttr, hd, hm0]

/-- Lines 58–63: a `data` array whose first element does not carry
`attributes.mime` maps every element to its bare `id` (provided the wrapper
has no truthy `id`, which would trigger the line-70 recursion). -/
theorem processAttr_rel_many (F : JV → Option JV)
    (fields : List (String × JV)) (ds : List JV)
    (hd : getF fields "data" = .arr ds)
    (hm0 : (((JV.arr ds).idx0.oc "attributes").oc "mime").truthy = false)
    (hid : (getF fields "id").truthy = false) :
    processAttr F (.obj fields) = (ds.mapM idOf).map .arr := by
  simp [processAttr, hd, hm0, hid]

/-- Lines 70–72: an object value with a truthy `id` and no `data` member is
recursively flattened by `strapiAttributesToRa`. -/
theorem processAttr_component (F : JV → Option JV)
    (fields : List (String × JV))
    (hd : getF fields "data" = .jsUndefined)
    (hid : (getF fields "id").truthy = true) :
    processAttr F (.obj fields) = F (.obj fields) := by
  simp [processAttr, hd, hid]

/-- Lines 44–46: a plain array attribute goes through `strapiArrayToRa`. -/
theorem processAttr_arr (F : JV → Option JV) (es : List JV) :
    processAttr F (.arr es) = (strapiArrayToRaW F es).map .arr := by
  simp [processAttr]

theorem setKey_notmem (l : List (String × JV)) (k : String) (v : JV)
    (h : k ∉ l.map Prod.fst) : setKey l k v = l ++ [(k, v)] := by
  induction l with
  | nil => rfl
  | cons kv rest ih =>
    obtain ⟨k0, w⟩ := kv
    simp only [List.map_cons, List.mem_cons, not_or] at h
    obtain ⟨h1, h2⟩ := h
    have h1' : ¬(k0 = k) := fun hc => h1 hc.symm
    simp [setKey, h1', ih h2]

theorem setKey_all (P : String × JV → Prop) (l : List (String × JV))
    (k : String) (v : JV) (hl : ∀ kv ∈ l, P kv) (hv : P (k, v)) :
    ∀ kv ∈ setKey l k v, P kv := by
  induction l with
  | nil => simpa [setKey] using hv
  | cons kv0 rest ih =>
    obtain ⟨k0, w⟩ := kv0
    by_cases h0 : k0 = k
    · simp only [setKey, if_pos h0]
      intro kv hkv
      rcases List.mem_cons.mp hkv with heq | hmem
      · exact heq ▸ hv
      · exact hl kv (List.mem_cons_of_mem _ hmem)
    · simp only [setKey, if_neg h0]
      intro kv hkv
      rcases List.mem_cons.mp hkv with heq | hmem
      · exact hl kv (heq ▸ List.mem_cons_self _ _)
      · exact ih (fun kv h => hl kv (List.mem_cons_of_mem _ h)) kv hmem

/-- Every entry of an `entryFold` result either came from the accumulator or
was produced by `E` on some input pair. -/
theorem entryFold_all (E : String → JV → Option (String × JV))
    (P : String × JV → Prop) (kvs : List (String × JV))
    (acc final : List (String × JV))
    (h : entryFold E acc kvs = some final)
    (hacc : ∀ kv ∈ acc, P kv)
    (hE : ∀ kv ∈ kvs, ∀ e, E kv.1 kv.2 = some e → P e) :
    ∀ kv ∈ final, P kv := by
  induction kvs generalizing acc with
  | nil =>
    simp only [entryFold, Option.some.injEq] at h
    exact h ▸ hacc
  | cons kv0 rest ih =>
    simp only [entryFold, Option.bind_eq_bind, Option.bind_eq_some] at h
    obtain ⟨e0, he0, hrest⟩ := h
    have hP0 : P e0 := hE kv0 (List.mem_cons_self _ _) e0 he0
    exact ih _ hrest
      (setKey_all P acc e0.1 e0.2 hacc (by simpa using hP0))
      (fun kv hm e he => hE kv (List.mem_cons_of_mem _ hm) e he)

theorem entryFold_lookup_kp (E : String → JV → Option (String × JV))
    (hkp : ∀ k v e, E k v = some e → e.1 = k)
    (kvs acc final : List (String × JV)) (k : String) (v : JV)
    (h : entryFold E acc kvs = some final)
    (hm : (k, v) ∈ kvs)
    (hnd : (kvs.map Prod.fst).Nodup) :
    ∃ w, E k v = some (k, w) ∧ getF final k = w := by
  obtain ⟨e, he⟩ := entryFold_success E kvs acc final h (k, v) hm
  have hek : e.1 = k := hkp _ _ _ he
  have hout : (kvs.map (fun kv => (E kv.1 kv.2).map Prod.fst)).Nodup := by
    have hcongr : kvs.map (fun kv => (E kv.1 kv.2).map Prod.fst)
        = (kvs.map Prod.fst).map some := by
      rw [List.map_map]
      apply List.map_congr_left
      intro kv hkv
      obtain ⟨e', he'⟩ := entryFold_success E kvs acc final h kv hkv
      simp [he', hkp _ _ _ he']
    rw [hcongr]
    exact hnd.map (fun a b hab => Option.some.inj hab)
  have hlook := entryFold_lookup E kvs acc final k v e h hm he hout
  obtain ⟨e1, e2⟩ := e
  simp only at hek
  subst hek
  exact ⟨e2, he, hlook⟩

theorem entryFold_keys (E : String → JV → Option (String × JV))
    (hkp : ∀ k v e, E k v = some e → e.1 = k)
    (kvs : List (String × JV)) (acc final : List (String × JV))
    (h : entryFold E acc kvs = some final)
    (hnd : (acc.map Prod.fst ++ kvs.map Prod.fst).Nodup) :
    final.map Prod.fst = acc.map Prod.fst ++ kvs.map Prod.fst := by
  induction kvs generalizing acc with
  | nil =>
    simp only [entryFold, Option.some.injEq] at h
    simp [← h]
  | cons kv0 rest ih =>
    simp only [entryFold, Option.bind_eq_bind, Option.bind_eq_some] at h
    obtain ⟨e0, he0, hrest⟩ := h
    have hek : e0.1 = kv0.1 := hkp _ _ _ he0
    have hnotin : e0.1 ∉ acc.map Prod.fst := by
      rw [hek]
      intro hc
      rw [List.nodup_append] at hnd
      exact hnd.2.2 hc (by simp)
    rw [setKey_notmem acc e0.1 e0.2 hnotin] at hrest
    have hnd' : ((acc ++ [(e0.1, e0.2)]).map Prod.fst ++ rest.map Prod.fst).Nodup := by
      simp only [List.map_append, List.map_cons, List.map_nil, hek]
      rw [List.append_assoc, List.singleton_append]
      simpa using hnd
    have := ih (acc ++ [(e0.1, e0.2)]) hrest hnd'
    rw [this]
    simp [hek, List.append_assoc]

theorem entryFold_map (E : String → JV → Option (String × JV))
    (g : String → JV → JV) (kvs acc : List (String × JV))
    (hEg : ∀ kv ∈ kvs, E kv.1 kv.2 = some (kv.1, g kv.1 kv.2))
    (hnd : (acc.map Prod.fst ++ kvs.map Prod.fst).Nodup) :
    entryFold E acc kvs
      = some (acc ++ kvs.map (fun kv => (kv.1, g kv.1 kv.2))) := by
  induction kvs generalizing acc with
  | nil => simp [entryFold]
  | cons kv0 rest ih =>
    have he0 := hEg kv0 (List.mem_cons_self _ _)
    simp only [entryFold, he0, Option.bind_eq_bind, Option.some_bind]
    have hnotin : kv0.1 ∉ acc.map Prod.fst := by
      intro hc
      rw [List.nodup_append] at hnd
      exact hnd.2.2 hc (by simp)
    rw [setKey_notmem acc kv0.1 _ hnotin]
    have hnd' : ((acc ++ [(kv0.1, g kv0.1 kv0.2)]).map Prod.fst
        ++ rest.map Prod.fst).Nodup := by
      simp only [List.map_append, List.map_cons, List.map_nil]
      rw [List.append_assoc, List.singleton_append]
      simpa using hnd
    rw [ih (acc ++ [(kv0.1, g kv0.1 kv0.2)])
      (fun kv hm => hEg kv (List.mem_cons_of_mem _ hm)) hnd']
    simp [List.append_assoc]

theorem getF_map_keys (fields : List (String × JV)) (g : String → JV → JV)
    (k : String) (v : JV) (hm : (k, v) ∈ fields)
    (hnd : (fields.map Prod.fst).Nodup) :
    getF (fields.map (fun kv => (kv.1, g kv.1 kv.2))) k = g k v := by
  induction fields with
  | nil => cases hm
  | cons kv0 rest ih =>
    obtain ⟨k0, w⟩ := kv0
    simp only [List.map_cons, List.nodup_cons] at hnd
    obtain ⟨hnotin, hndrest⟩ := hnd
    rcases List.mem_cons.mp hm with heq | hmem
    · obtain ⟨rfl, rfl⟩ : k0 = k ∧ w = v := by
        injection heq.symm with h1 h2
        exact ⟨h1, h2⟩
      simp [getF]
    · have hk0 : ¬(k0 = k) := by
        intro hc
        subst hc
        exact hnotin (by simpa using List.mem_map_of_mem Prod.fst hmem)
      simp only [List.map_cons, getF, if_neg hk0]
      exact ih hmem hndrest

theorem mem_of_getF (l : List (String × JV)) (k : String)
    (h : k ∈ l.map Prod.fst) : (k, getF l k) ∈ l := by
  induction l with
  | nil => cases h
  | cons kv0 rest ih =>
    obtain ⟨k0, w⟩ := kv0
    by_cases hk : k0 = k
    · subst hk
      simp [getF]
    · simp only [List.map_cons, List.mem_cons] at h
      rcases h with heq | hmem
      · exact absurd heq.symm hk
      · simp only [getF, if_neg hk]
        exact List.mem_cons_of_mem _ (ih hmem)

/-- Scalar (primitive) JSON values: `null`, booleans, numbers, strings. -/
def JV.isScalar : JV → Bool
  | .null => true
  | .bool _ => true
  | .num _ => true
  | .str _ => true
  | _ => false

/-- Per-key characterization of `strapiAttributesToRa` on an object: the value
stored under `k` in the output is `processAttr` of the value stored under `k`
in the input. -/
theorem strapiAttributesToRa_lookup (fuel : Nat) (fields : List (String × JV))
    (out : JV) (k : String) (v : JV)
    (hev : strapiAttributesToRa (fuel + 1) (.obj fields) = some out)
    (hm : (k, v) ∈ fields)
    (hnd : (fields.map Prod.fst).Nodup) :
    ∃ ofields nv, out = JV.obj ofields ∧
      processAttr (fun x => strapiAttributesToRa fuel x) v = some nv ∧
      getF ofields k = nv ∧
      ofields.map Prod.fst = fields.map Prod.fst := by
  simp only [strapiAttributesToRa, keyVals, Option.pure_def, Option.bind_eq_bind,
    Option.some_bind, Option.bind_eq_some, Option.some.injEq] at hev
  obtain ⟨ofields, hfold, hout⟩ := hev
  have hkp : ∀ (k : String) (v : JV) (e : String × JV),
      (processAttr (fun x => strapiAttributesToRa fuel x) v).map
        (fun nv => (k, nv)) = some e → e.1 = k := by
    intro k v e he
    simp only [Option.map_eq_some'] at he
    obtain ⟨nv, _, hnv⟩ := he
    rw [← hnv]
  obtain ⟨w, hw, hgf⟩ := entryFold_lookup_kp _ hkp fields [] ofields k v hfold hm hnd
  simp only [Option.map_eq_some'] at hw
  obtain ⟨nv, hnv, hpair⟩ := hw
  obtain rfl : nv = w := by
    injection hpair with h1 h2
  have hkeys := entryFold_keys _ hkp fields [] ofields hfold (by simpa using hnd)
  exact ⟨ofields, nv, hout.symm, hnv, hgf, by simpa using hkeys⟩

/-- The spec's description of the write-path empty-value pass, per key:
`""` is mapped to `null`, and the value of the field named `"stages"` is
additionally wrapped as `{data: value}` while every other field passes
through unwrapped. -/
def stagesWrapSpec (k : String) (v : JV) : JV :=
  if k = "stages" then JV.obj [("data", if v = JV.str "" then JV.null else v)]
  else if v = JV.str "" then JV.null else v

/-- Full characterization of `raEmptyAttributesToStrapi` on an object with
distinct keys: every key is preserved in order and every value is transformed
by `stagesWrapSpec`. -/
theorem raEmpty_map (fields : List (String × JV))
    (hnd : (fields.map Prod.fst).Nodup) :
    raEmptyAttributesToStrapi (.obj fields)
      = some (.obj (fields.map (fun kv => (kv.1, stagesWrapSpec kv.1 kv.2)))) := by
  simp only [raEmptyAttributesToStrapi, keyVals, Option.pure_def,
    Option.bind_eq_bind, Option.some_bind]
  rw [entryFold_map _ stagesWrapSpec fields [] ?_ (by simpa using hnd)]
  · simp
  · intro kv hm
    by_cases hk : kv.1 = "stages" <;>
      simp [hk, components, List.contains, stagesWrapSpec]

/-- C10: on the write path, `raEmptyAttributesToStrapi` rebuilds the object
key by key with `""` replaced by `null`, and wraps exactly the top-level
field named `"stages"` as `{data: <value>}`; every other field's value is
passed through unwrapped.  The `if kv.1 = "stages"` in the statement shows
that `"stages"` is the only field name receiving the wrapping. -/
theorem raEmpty_stages_only (fields : List (String × JV))
    (hnd : (fields.map Prod.fst).Nodup) :
    raEmptyAttributesToStrapi (.obj fields)
      = some (.obj (fields.map (fun kv =>
          (kv.1, if kv.1 = "stages"
                 then JV.obj [("data", if kv.2 = JV.str "" then JV.null else kv.2)]
                 else if kv.2 = JV.str "" then JV.null else kv.2)))) := by
  rw [raEmpty_map fields hnd]
  rfl

/-- Witness for C10 at the concrete record
`{stages: "", title: "", n: 3, other: {data: 1}}`. -/
theorem raEmpty_stages_only_witness :
    raEmptyAttributesToStrapi
      (.obj [("stages", .str ""), ("title", .str ""), ("n", .num 3),
             ("other", .obj [("data", .num 1)])])
      = some (.obj [("stages", .obj [("data", JV.null)]), ("title", JV.null),
                    ("n", .num 3), ("other", .obj [("data", .num 1)])]) := by
  have h := raEmpty_stages_only
    [("stages", .str ""), ("title", .str ""), ("n", .num 3),
     ("other", .obj [("data", .num 1)])] (by decide)
  exact h.trans (by decide)

/-- C6 (amended): reading, a backend attribute value that is exactly
`{data: null}` flattens to `""`; writing, a field holding `""` becomes `null`
in the outgoing payload for every field name except `"stages"`, whose value
(`""` mapped to `null`) is additionally wrapped as `{data: null}`. -/
theorem data_null_empty_string_roundtrip (fuel : Nat)
    (fields : List (String × JV)) (out : JV) (k : String)
    (wfields : List (String × JV)) (out2 : JV) :
    (strapiAttributesToRa (fuel + 1) (.obj fields) = some out →
      (k, JV.obj [("data", JV.null)]) ∈ fields →
      (fields.map Prod.fst).Nodup →
      ∃ ofields, out = JV.obj ofields ∧ getF ofields k = JV.str "") ∧
    (raEmptyAttributesToStrapi (.obj wfields) = some out2 →
      (k, JV.str "") ∈ wfields →
      (wfields.map Prod.fst).Nodup →
      k ≠ "stages" →
      ∃ ofields2, out2 = JV.obj ofields2 ∧ getF ofields2 k = JV.null) ∧
    (raEmptyAttributesToStrapi (.obj wfields) = some out2 →
      ("stages", JV.str "") ∈ wfields →
      (wfields.map Prod.fst).Nodup →
      ∃ ofields2, out2 = JV.obj ofields2 ∧
        getF ofields2 "stages" = JV.obj [("data", JV.null)]) := by
  refine ⟨?_, ?_, ?_⟩
  · intro hev hm hnd
    obtain ⟨ofields, nv, rfl, hpv, hgf, hkeys⟩ :=
      strapiAttributesToRa_lookup fuel fields _ k _ hev hm hnd
    rw [processAttr_data_null _ _ (by decide) (by decide)] at hpv
    obtain rfl : JV.str "" = nv := Option.some.inj hpv
    exact ⟨ofields, rfl, hgf⟩
  · intro hre hm hnd hk
    rw [raEmpty_map wfields hnd] at hre
    obtain rfl := (Option.some.inj hre).symm
    refine ⟨_, rfl, ?_⟩
    rw [getF_map_keys wfields stagesWrapSpec k (JV.str "") hm hnd]
    simp [stagesWrapSpec, hk]
  · intro hre hm hnd
    rw [raEmpty_map wfields hnd] at hre
    obtain rfl := (Option.some.inj hre).symm
    refine ⟨_, rfl, ?_⟩
    rw [getF_map_keys wfields stagesWrapSpec "stages" (JV.str "") hm hnd]
    simp [stagesWrapSpec]

/-- Witness for C6: the three parts applied at concrete records. -/
theorem data_null_empty_string_roundtrip_witness :
    (∃ ofields, JV.obj [("rel", JV.str ""), ("t", JV.num 1)] = JV.obj ofields ∧
      getF ofields "rel" = JV.str "") ∧
    (∃ ofields2, JV.obj [("a", JV.null)] = JV.obj ofields2 ∧
      getF ofields2 "a" = JV.null) ∧
    (∃ ofields2, JV.obj [("stages", JV.obj [("data", JV.null)])] = JV.obj ofields2 ∧
      getF ofields2 "stages" = JV.obj [("data", JV.null)]) := by
  refine ⟨?_, ?_, ?_⟩
  · exact (data_null_empty_string_roundtrip 8
      [("rel", .obj [("data", JV.null)]), ("t", .num 1)]
      (.obj [("rel", .str ""), ("t", .num 1)]) "rel" [] .jsUndefined).1
      (by decide) (by decide) (by decide)
  · exact (data_null_empty_string_roundtrip 0 [] .jsUndefined "a"
      [("a", .str "")] (.obj [("a", JV.null)])).2.1
      (by decide) (by decide) (by decide) (by decide)
  · exact (data_null_empty_string_roundtrip 0 [] .jsUndefined "x"
      [("stages", .str "")] (.obj [("stages", .obj [("data", JV.null)])])).2.2
      (by decide) (by decide) (by decide)

/-- Counterexample to C6 as stated: for the field named `"stages"`, writing
`""` back does not produce `null` — it produces the wrapped `{data: null}`. -/
theorem raEmpty_stages_counterexample :
    raEmptyAttributesToStrapi (.obj [("stages", .str "")])
      = some (.obj [("stages", .obj [("data", JV.null)])]) ∧
    raEmptyAttributesToStrapi (.obj [("stages", .str "")])
      ≠ some (.obj [("stages", JV.null)]) :=
  ⟨by decide, by decide⟩

/-- C2 (amended): for a backend envelope attribute holding a scalar value `v`
under key `k`, flattening with `strapiAttributesToRa` and re-nesting with
`raEmptyAttributesToStrapi` returns `k : v` unchanged, provided `v ≠ ""`
(which the write path maps to `null`) and `k ≠ "stages"` (which the write
path wraps as `{data: v}`): see the counterexample for both exclusions. -/
theorem roundtrip_scalar_preserved (fuel : Nat) (fields : List (String × JV))
    (out out2 : JV) (k : String) (v : JV)
    (hm : (k, v) ∈ fields)
    (hsc : v.isScalar = true)
    (hne : v ≠ JV.str "")
    (hk : k ≠ "stages")
    (hnd : (fields.map Prod.fst).Nodup)
    (hev : strapiAttributesToRa (fuel + 1) (.obj fields) = some out)
    (hre : raEmptyAttributesToStrapi out = some out2) :
    ∃ ofields2, out2 = JV.obj ofields2 ∧ getF ofields2 k = v := by
  obtain ⟨ofields, nv, rfl, hpv, hgf, hkeys⟩ :=
    strapiAttributesToRa_lookup fuel fields _ k v hev hm hnd
  have hnv : nv = v := by
    cases v with
    | null => exact (Option.some.inj hpv).symm
    | bool b => exact (Option.some.inj hpv).symm
    | num n => exact (Option.some.inj hpv).symm
    | str s => exact (Option.some.inj hpv).symm
    | jsUndefined => simp [JV.isScalar] at hsc
    | arr es => simp [JV.isScalar] at hsc
    | obj fs => simp [JV.isScalar] at hsc
    | file f => simp [JV.isScalar] at hsc
  subst hnv
  have hndo : (ofields.map Prod.fst).Nodup := by rw [hkeys]; exact hnd
  have hmem : (k, nv) ∈ ofields := by
    have hkmem : k ∈ ofields.map Prod.fst := by
      rw [hkeys]
      exact List.mem_map_of_mem Prod.fst hm
    have h := mem_of_getF ofields k hkmem
    rw [hgf] at h
    exact h
  rw [raEmpty_map ofields hndo] at hre
  obtain rfl := (Option.some.inj hre).symm
  refine ⟨_, rfl, ?_⟩
  rw [getF_map_keys ofields stagesWrapSpec k nv hmem hndo]
  simp [stagesWrapSpec, hk, hne]

/-- Witness for C2 at the record `{title: "hello", n: 4}`. -/
theorem roundtrip_scalar_preserved_witness :
    ∃ ofields2, JV.obj [("title", JV.str "hello"), ("n", JV.num 4)]
        = JV.obj ofields2 ∧
      getF ofields2 "title" = JV.str "hello" := by
  exact roundtrip_scalar_preserved 1 [("title", .str "hello"), ("n", .num 4)]
    (.obj [("title", .str "hello"), ("n", .num 4)])
    (.obj [("title", .str "hello"), ("n", .num 4)]) "title" (.str "hello")
    (by decide) (by decide) (by decide) (by decide) (by decide) (by decide)
    (by decide)

/-- Counterexample to C2 as stated: the round trip does not preserve every
scalar under every key — `""` comes back as `null`, and any value under the
key `"stages"` comes back wrapped as `{data: value}`. -/
theorem roundtrip_scalar_counterexample :
    strapiAttributesToRa 1 (.obj [("t", .str ""), ("stages", .num 5)])
      = some (.obj [("t", .str ""), ("stages", .num 5)]) ∧
    raEmptyAttributesToStrapi (.obj [("t", .str ""), ("stages", .num 5)])
      = some (.obj [("t", JV.null), ("stages", .obj [("data", .num 5)])]) ∧
    raEmptyAttributesToStrapi (.obj [("t", .str ""), ("stages", .num 5)])
      ≠ some (.obj [("t", .str ""), ("stages", .num 5)]) :=
  ⟨by decide, by decide, by decide⟩

/-- C7: for a relation-wrapper attribute value (an object with a `data` array
and no truthy `id`), the file-vs-id decision depends solely on whether the
first element carries `attributes.mime`: with the marker every element maps
to `{id: el.id, ...el.attributes}` (`mediaItem`), without it the attribute
maps to the array of bare element ids (`idOf`).  Likewise an attribute-level
array whose first element lacks `attributes` is flattened element-wise by
`strapiAttributesToRa`, under which an element's nested media object (a
`{data: {id, attributes-with-mime}}` field) flattens to `{id, ...attributes}`
rather than a bare id. -/
theorem strapiArrayToRa_mime_dispatch (fuel : Nat) :
    (∀ fields ds, getF fields "data" = JV.arr ds →
      (getF fields "id").truthy = false →
      ((((JV.arr ds).idx0.oc "attributes").oc "mime").truthy = true →
        processAttr (fun x => strapiAttributesToRa fuel x) (.obj fields)
          = (ds.mapM mediaItem).map JV.arr) ∧
      ((((JV.arr ds).idx0.oc "attributes").oc "mime").truthy = false →
        processAttr (fun x => strapiAttributesToRa fuel x) (.obj fields)
          = (ds.mapM idOf).map JV.arr)) ∧
    (∀ els, ((JV.arr els).idx0.oc "attributes").truthy = false →
      strapiArrayToRa fuel els = els.mapM (strapiAttributesToRa fuel)) ∧
    (∀ (k : String) (idv : JV) (afs flatafs : List (String × JV)),
      (getF afs "mime").truthy = true →
      strapiAttributesToRa fuel (JV.obj afs) = some (JV.obj flatafs) →
      strapiAttributesToRa (fuel + 1)
        (.obj [(k, .obj [("data",
          .obj [("id", idv), ("attributes", .obj afs)])])])
        = some (.obj [(k, .obj (mkSpread [("id", idv)] (.obj flatafs)))])) := by
  refine ⟨?_, ?_, ?_⟩
  · intro fields ds hd hid
    exact ⟨fun hm0 => processAttr_media_many _ fields ds hd hm0,
           fun hm0 => processAttr_rel_many _ fields ds hd hm0 hid⟩
  · intro els h0
    simp [strapiArrayToRa, strapiArrayToRaW, h0]
  · intro k idv afs flatafs hmime hafs
    have hps := processAttr_media_single (fun x => strapiAttributesToRa fuel x)
      [("data", JV.obj [("id", idv), ("attributes", JV.obj afs)])]
      [("id", idv), ("attributes", JV.obj afs)]
      (by simp [getF]) (by simp [getF, hmime]) (by simp [getF])
    simp only [strapiAttributesToRa, keyVals, entryFold, hps, Option.pure_def,
      Option.bind_eq_bind, Option.some_bind, strapiObjectToRaW, JV.sget_obj,
      getF, if_pos rfl, hafs]
    simp [setKey, getF, hafs]

/-- Witness for C7: the three parts applied at concrete values — a media
collection `{data: [{id: 1, attributes: {mime, url}}]}`, an id collection
`{data: [{id: 1}, {id: 2}]}`, an attribute-level array `[{n: 1}]`, and an
element holding a nested media object. -/
theorem strapiArrayToRa_mime_dispatch_witness :
    (processAttr (fun x => strapiAttributesToRa 3 x)
      (.obj [("data", .arr [.obj [("id", .num 1),
        ("attributes", .obj [("mime", .str "image/png"), ("url", .str "u")])]])])
      = ([JV.obj [("id", .num 1),
          ("attributes", .obj [("mime", .str "image/png"), ("url", .str "u")])]].mapM
            mediaItem).map JV.arr) ∧
    (processAttr (fun x => strapiAttributesToRa 3 x)
      (.obj [("data", .arr [.obj [("id", .num 1)], .obj [("id", .num 2)]])])
      = ([JV.obj [("id", .num 1)], JV.obj [("id", .num 2)]].mapM idOf).map JV.arr) ∧
    (strapiArrayToRa 3 [.obj [("n", .num 1)]]
      = [JV.obj [("n", .num 1)]].mapM (strapiAttributesToRa 3)) ∧
    (strapiAttributesToRa 4
      (.obj [("photo", .obj [("data", .obj [("id", .num 9),
        ("attributes", .obj [("mime", .str "image/png"), ("url", .str "u")])])])])
      = some (.obj [("photo", .obj (mkSpread [("id", JV.num 9)]
          (.obj [("mime", JV.str "image/png"), ("url", JV.str "u")])))])) := by
  obtain ⟨h1, h2, h3⟩ := strapiArrayToRa_mime_dispatch 3
  refine ⟨?_, ?_, ?_, ?_⟩
  · exact (h1 _ _ (by decide) (by decide)).1 (by decide)
  · exact (h1 _ _ (by decide) (by decide)).2 (by decide)
  · exact h2 _ (by decide)
  · exact h3 "photo" (.num 9)
      [("mime", .str "image/png"), ("url", .str "u")]
      [("mime", .str "image/png"), ("url", .str "u")]
      (by decide) (by decide)

/-- Usable backend ids: positive integers or nonempty strings (truthy
scalars, as the source's truthiness checks on `data.id` require). -/
def idOkB : JV → Bool
  | .num n => 0 < n
  | .str s => s != ""
  | _ => false

mutual

/-- A value free of `data`/`attributes` envelope nesting at any depth. -/
def flatV : JV → Bool
  | .obj fs => flatFields fs
  | .arr es => flatElems es
  | _ => true

def flatFields : List (String × JV) → Bool
  | [] => true
  | (k, v) :: rest => k != "data" && k != "attributes" && flatV v && flatFields rest

def flatElems : List JV → Bool
  | [] => true
  | e :: rest => flatV e && flatElems rest

end

/-- The claim's classification of a flattened field value: a scalar (bare id,
empty string or plain scalar), a flat expanded object, or an array of
scalars / flat expanded objects. -/
def classOk : JV → Bool
  | .null => true
  | .bool _ => true
  | .num _ => true
  | .str _ => true
  | .obj fs => flatFields fs
  | .arr es => es.all (fun e =>
      e.isScalar || (match e with | .obj fs => flatFields fs | _ => false))
  | _ => false

/-- Scalar-only media attributes without envelope keys (the amended C4's
restriction on media **collections**, whose attributes the source spreads
verbatim without recursive flattening). -/
def mediaAttrsScalar (afs : List (String × JV)) : Bool :=
  afs.all (fun kv => kv.1 != "data" && kv.1 != "attributes" && kv.2.isScalar)

/-- A well-formed element of a media file collection. -/
def mediaEntryOk : JV → Bool
  | .obj fs =>
    idOkB (getF fs "id") &&
    (match getF fs "attributes" with
     | .obj afs => mediaAttrsScalar afs
     | _ => false)
  | _ => false

/-- A well-formed element of an id (non-media) relation collection. -/
def relEntryOk : JV → Bool
  | .obj fs => idOkB (getF fs "id")
  | _ => false

mutual

/-- Well-formed backend attribute value per the spec's data model (§3/§4.1):
a scalar, a relation/media wrapper `{data: …}`, an embedded component (an
object with a truthy `id`), or a plain array of envelopes / components. -/
def wfVal : JV → Bool
  | .null => true
  | .bool _ => true
  | .num _ => true
  | .str _ => true
  | .obj [("data", d)] => dataOk d
  | .obj fs => (getF fs "id").truthy && wfFields fs
  | .arr [] => true
  | .arr (e :: rest) =>
    if (e.oc "attributes").truthy then wfEnvs (e :: rest)
    else wfComps (e :: rest)
  | _ => false

/-- Well-formed attribute map: field names avoid the envelope keys
`data`/`attributes` and every value is well formed. -/
def wfFields : List (String × JV) → Bool
  | [] => true
  | (k, v) :: rest => k != "data" && k != "attributes" && wfVal v && wfFields rest

/-- Well-formed `data` member of a relation/media wrapper. -/
def dataOk : JV → Bool
  | .null => true
  | .obj [("id", idv)] => idOkB idv
  | .obj [("id", idv), ("attributes", att)] =>
    idOkB idv &&
    (if (att.oc "mime").truthy then
       match att with
       | .obj afs => wfFields afs
       | _ => false
     else true)
  | .arr ds =>
    if (((JV.arr ds).idx0.oc "attributes").oc "mime").truthy then
      ds.all mediaEntryOk
    else ds.all relEntryOk
  | _ => false

/-- Well-formed resource envelope `{id, attributes}` element. -/
def envElemOkM : JV → Bool
  | .obj [("id", idv), ("attributes", .obj afs)] => idOkB idv && wfFields afs
  | _ => false

/-- Well-formed attribute-level component object element. -/
def compElemOkM : JV → Bool
  | .obj fs => wfFields fs
  | _ => false

/-- Well-formed array of resource envelopes `{id, attributes}`. -/
def wfEnvs : List JV → Bool
  | [] => true
  | e :: rest => envElemOkM e && wfEnvs rest

/-- Well-formed array of attribute-level component objects. -/
def wfComps : List JV → Bool
  | [] => true
  | e :: rest => compElemOkM e && wfComps rest

end

theorem wfVal_obj_elim (fs : List (String × JV)) (h : wfVal (.obj fs) = true) :
    (∃ d, fs = [("data", d)] ∧ dataOk d = true) ∨
    ((getF fs "id").truthy = true ∧ wfFields fs = true) := by
  rw [wfVal.eq_def] at h
  split at h
  · rename_i heq; simp at heq
  · rename_i heq; simp at heq
  · rename_i heq; simp at heq
  · rename_i heq; simp at heq
  · rename_i d heq
    injection heq with h1
    exact Or.inl ⟨d, h1, h⟩
  · rename_i fs' hno heq
    injection heq with h1
    subst h1
    rw [Bool.and_eq_true] at h
    exact Or.inr h
  · rename_i heq; simp at heq
  · rename_i heq; simp at heq
  · simp at h

theorem wfVal_arr_elim (es : List JV) (h : wfVal (.arr es) = true) :
    (((JV.arr es).idx0.oc "attributes").truthy = true → wfEnvs es = true) ∧
    (((JV.arr es).idx0.oc "attributes").truthy = false → wfComps es = true) := by
  rw [wfVal.eq_def] at h
  split at h
  · rename_i heq; simp at heq
  · rename_i heq; simp at heq
  · rename_i heq; simp at heq
  · rename_i heq; simp at heq
  · rename_i heq; simp at heq
  · rename_i heq; simp at heq
  · rename_i heq
    injection heq with h1
    subst h1
    exact ⟨fun _ => rfl, fun _ => rfl⟩
  · rename_i e rest heq
    injection heq with h1
    subst h1
    simp only [JV.idx0_cons]
    constructor
    · intro hc
      rw [if_pos hc] at h
      exact h
    · intro hc
      rw [hc] at h
      simp only [Bool.false_eq_true, if_false] at h
      exact h
  · simp at h

theorem dataOk_elim (d : JV) (h : dataOk d = true) :
    d = .null ∨
    (∃ idv, d = .obj [("id", idv)] ∧ idOkB idv = true) ∨
    (∃ idv att, d = .obj [("id", idv), ("attributes", att)] ∧ idOkB idv = true ∧
      ((att.oc "mime").truthy = true →
        ∃ afs, att = .obj afs ∧ wfFields afs = true)) ∨
    (∃ ds, d = .arr ds ∧
      ((((JV.arr ds).idx0.oc "attributes").oc "mime").truthy = true →
        ds.all mediaEntryOk = true) ∧
      ((((JV.arr ds).idx0.oc "attributes").oc "mime").truthy = false →
        ds.all relEntryOk = true)) := by
  rw [dataOk.eq_def] at h
  split at h
  · exact Or.inl rfl
  · rename_i idv
    exact Or.inr (Or.inl ⟨idv, rfl, h⟩)
  · rename_i idv att
    rw [Bool.and_eq_true] at h
    refine Or.inr (Or.inr (Or.inl ⟨idv, att, rfl, h.1, ?_⟩))
    intro hmime
    have h2 := h.2
    rw [if_pos hmime] at h2
    cases att
    case obj afs => exact ⟨afs, rfl, h2⟩
    all_goals simp at h2
  · rename_i ds
    refine Or.inr (Or.inr (Or.inr ⟨ds, rfl, ?_, ?_⟩))
    · intro hmime
      rw [if_pos hmime] at h
      exact h
    · intro hmime
      rw [hmime] at h
      simp only [Bool.false_eq_true, if_false] at h
      exact h
  · simp at h

theorem envElemOkM_elim (e : JV) (h : envElemOkM e = true) :
    ∃ idv afs, e = .obj [("id", idv), ("attributes", .obj afs)] ∧
      idOkB idv = true ∧ wfFields afs = true := by
  rw [envElemOkM.eq_def] at h
  split at h
  · rename_i idv afs
    rw [Bool.and_eq_true] at h
    exact ⟨idv, afs, rfl, h.1, h.2⟩
  · simp at h

theorem compElemOkM_elim (e : JV) (h : compElemOkM e = true) :
    ∃ fs, e = .obj fs ∧ wfFields fs = true := by
  rw [compElemOkM.eq_def] at h
  split at h
  · rename_i fs
    exact ⟨fs, rfl, h⟩
  · simp at h

theorem mediaEntryOk_elim (e : JV) (h : mediaEntryOk e = true) :
    ∃ fs afs, e = .obj fs ∧ idOkB (getF fs "id") = true ∧
      getF fs "attributes" = .obj afs ∧ mediaAttrsScalar afs = true := by
  rw [mediaEntryOk.eq_def] at h
  split at h
  · rename_i fs
    rw [Bool.and_eq_true] at h
    obtain ⟨h1, h2⟩ := h
    split at h2
    · rename_i afs heq
      exact ⟨fs, afs, rfl, h1, heq, h2⟩
    · simp at h2
  · simp at h

theorem relEntryOk_elim (e : JV) (h : relEntryOk e = true) :
    ∃ fs, e = .obj fs ∧ idOkB (getF fs "id") = true := by
  rw [relEntryOk.eq_def] at h
  split at h
  · rename_i fs
    exact ⟨fs, rfl, h⟩
  · simp at h

theorem flatFields_mem (l : List (String × JV)) :
    flatFields l = true ↔
      ∀ kv ∈ l, kv.1 ≠ "data" ∧ kv.1 ≠ "attributes" ∧ flatV kv.2 = true := by
  induction l with
  | nil => simp [flatFields]
  | cons kv rest ih =>
    obtain ⟨k, v⟩ := kv
    simp [flatFields, ih, bne_iff_ne, and_assoc]

theorem flatElems_mem (l : List JV) :
    flatElems l = true ↔ ∀ e ∈ l, flatV e = true := by
  induction l with
  | nil => simp [flatElems]
  | cons e rest ih => simp [flatElems, ih]

theorem wfFields_mem (l : List (String × JV)) :
    wfFields l = true ↔
      ∀ kv ∈ l, kv.1 ≠ "data" ∧ kv.1 ≠ "attributes" ∧ wfVal kv.2 = true := by
  induction l with
  | nil => simp [wfFields]
  | cons kv rest ih =>
    obtain ⟨k, v⟩ := kv
    simp [wfFields, ih, bne_iff_ne, and_assoc]

theorem wfEnvs_mem (l : List JV) :
    wfEnvs l = true ↔ ∀ e ∈ l, envElemOkM e = true := by
  induction l with
  | nil => simp [wfEnvs]
  | cons e rest ih => simp [wfEnvs, ih]

theorem wfComps_mem (l : List JV) :
    wfComps l = true ↔ ∀ e ∈ l, compElemOkM e = true := by
  induction l with
  | nil => simp [wfComps]
  | cons e rest ih => simp [wfComps, ih]

theorem idOkB_props (v : JV) (h : idOkB v = true) :
    v.truthy = true ∧ v.isScalar = true ∧ flatV v = true ∧ classOk v = true := by
  cases v
  case num n =>
    simp only [idOkB, decide_eq_true_eq] at h
    refine ⟨?_, rfl, rfl, rfl⟩
    simp only [JV.truthy_num, bne_iff_ne, ne_eq]
    omega
  case str s =>
    simp only [idOkB] at h
    exact ⟨h, rfl, rfl, rfl⟩
  all_goals simp [idOkB] at h

theorem scalar_flat (v : JV) (h : v.isScalar = true) :
    flatV v = true ∧ classOk v = true := by
  cases v <;> simp_all [JV.isScalar, flatV, classOk]

/-- `getF` on a key excluded from every field name gives `undefined`. -/
theorem getF_jsUndefined_of_excluded (l : List (String × JV)) (key : String)
    (h : ∀ kv ∈ l, kv.1 ≠ key) : getF l key = .jsUndefined := by
  induction l with
  | nil => rfl
  | cons kv rest ih =>
    obtain ⟨k, v⟩ := kv
    have hk : ¬(k = key) := h (k, v) (List.mem_cons_self _ _)
    simp only [getF, if_neg hk]
    exact ih (fun kv hm => h kv (List.mem_cons_of_mem _ hm))

theorem mapM_some_all {α β : Type} (f : α → Option β) (l : List α)
    (outs : List β) (Q : β → Prop)
    (h : l.mapM f = some outs)
    (hf : ∀ a ∈ l, ∀ b, f a = some b → Q b) :
    ∀ b ∈ outs, Q b := by
  induction l generalizing outs with
  | nil =>
    simp only [List.mapM_nil, Option.pure_def, Option.some.injEq] at h
    subst h
    intro b hb
    cases hb
  | cons a rest ih =>
    simp only [List.mapM_cons, Option.pure_def, Option.bind_eq_bind,
      Option.bind_eq_some, Option.some.injEq] at h
    obtain ⟨b0, hb0, bs, hbs, rfl⟩ := h
    intro b hb
    rcases List.mem_cons.mp hb with rfl | hmem
    · exact hf a (List.mem_cons_self _ _) b hb0
    · exact ih bs hbs
        (fun a' ha' b' hb' => hf a' (List.mem_cons_of_mem _ ha') b' hb') b hmem

theorem foldl_setKey_all (P : String × JV → Prop) (l : List (String × JV))
    (base : List (String × JV))
    (hbase : ∀ kv ∈ base, P kv) (hl : ∀ kv ∈ l, P kv) :
    ∀ kv ∈ l.foldl (fun acc kv => setKey acc kv.1 kv.2) base, P kv := by
  induction l generalizing base with
  | nil => exact hbase
  | cons kv0 rest ih =>
    simp only [List.foldl_cons]
    exact ih (setKey base kv0.1 kv0.2)
      (setKey_all P base kv0.1 kv0.2 hbase
        (by simpa using hl kv0 (List.mem_cons_self _ _)))
      (fun kv hm => hl kv (List.mem_cons_of_mem _ hm))

theorem mkSpread_all (P : String × JV → Prop) (base : List (String × JV))
    (v : JV) (hbase : ∀ kv ∈ base, P kv)
    (hspread : ∀ kv ∈ spreadFields v, P kv) :
    ∀ kv ∈ mkSpread base v, P kv :=
  foldl_setKey_all P (spreadFields v) base hbase hspread

theorem mediaItem_flat (e out : JV) (he : mediaEntryOk e = true)
    (hev : mediaItem e = some out) :
    ∃ ofs, out = JV.obj ofs ∧ flatFields ofs = true := by
  obtain ⟨fs, afs, rfl, hid, hatt, hsc⟩ := mediaEntryOk_elim e he
  simp only [mediaItem, JV.sget_obj, hatt, Option.pure_def, Option.bind_eq_bind,
    Option.some_bind, Option.some.injEq] at hev
  refine ⟨mkSpread [("id", getF fs "id")] (.obj afs), hev.symm, ?_⟩
  rw [flatFields_mem]
  apply mkSpread_all (fun kv => kv.1 ≠ "data" ∧ kv.1 ≠ "attributes" ∧ flatV kv.2 = true)
  · intro kv hm
    simp only [List.mem_singleton] at hm
    subst hm
    refine ⟨by simp, by simp, ?_⟩
    exact (idOkB_props _ hid).2.2.1
  · intro kv hm
    simp only [spreadFields, forInPairs, keyVals, Option.getD_some] at hm
    have := (List.all_eq_true.mp hsc) kv hm
    simp only [Bool.and_eq_true, bne_iff_ne, ne_eq] at this
    exact ⟨this.1.1, this.1.2, (scalar_flat _ this.2).1⟩

theorem idOf_scalar (e b : JV) (he : relEntryOk e = true)
    (hev : idOf e = some b) : b.isScalar = true ∧ flatV b = true := by
  obtain ⟨fs, rfl, hid⟩ := relEntryOk_elim e he
  simp only [idOf, JV.sget_obj, Option.some.injEq] at hev
  subst hev
  exact ⟨(idOkB_props _ hid).2.1, (idOkB_props _ hid).2.2.1⟩

theorem strapiObjectToRaW_flat (F : JV → Option JV)
    (hF : ∀ fs out, wfFields fs = true → F (.obj fs) = some out →
      ∃ ofs, out = JV.obj ofs ∧ flatFields ofs = true ∧
        ∀ kv ∈ ofs, classOk kv.2 = true)
    (idv : JV) (afs : List (String × JV)) (out : JV)
    (hid : idOkB idv = true) (hwf : wfFields afs = true)
    (hev : strapiObjectToRaW F (.obj [("id", idv), ("attributes", .obj afs)])
      = some out) :
    ∃ ofs, out = JV.obj ofs ∧ flatFields ofs = true ∧
      ∀ kv ∈ ofs, classOk kv.2 = true := by
  simp only [strapiObjectToRaW, JV.sget_obj, Option.pure_def, Option.bind_eq_bind,
    Option.some_bind, Option.bind_eq_some, Option.some.injEq] at hev
  rw [show getF [("id", idv), ("attributes", JV.obj afs)] "id" = idv from by
    simp [getF]] at hev
  rw [show getF [("id", idv), ("attributes", JV.obj afs)] "attributes"
      = JV.obj afs from by simp [getF]] at hev
  obtain ⟨flat, hflat, hout⟩ := hev
  obtain ⟨ffs, rfl, hff, hfc⟩ := hF afs flat hwf hflat
  refine ⟨mkSpread [("id", idv)] (.obj ffs), hout.symm, ?_, ?_⟩
  · rw [flatFields_mem]
    apply mkSpread_all
      (fun kv => kv.1 ≠ "data" ∧ kv.1 ≠ "attributes" ∧ flatV kv.2 = true)
    · intro kv hm
      simp only [List.mem_singleton] at hm
      subst hm
      exact ⟨by simp, by simp, (idOkB_props _ hid).2.2.1⟩
    · intro kv hm
      simp only [spreadFields, forInPairs, keyVals, Option.getD_some] at hm
      exact (flatFields_mem ffs).mp hff kv hm
  · intro kv hm
    have := mkSpread_all
      (fun kv => classOk kv.2 = true) [("id", idv)] (.obj ffs)
      ?_ ?_ kv hm
    · exact this
    · intro kv0 hm0
      simp only [List.mem_singleton] at hm0
      subst hm0
      exact (idOkB_props _ hid).2.2.2
    · intro kv0 hm0
      simp only [spreadFields, forInPairs, keyVals, Option.getD_some] at hm0
      exact hfc kv0 hm0

theorem processAttr_flat (F : JV → Option JV)
    (hF : ∀ fs out, wfFields fs = true → F (.obj fs) = some out →
      ∃ ofs, out = JV.obj ofs ∧ flatFields ofs = true ∧
        ∀ kv ∈ ofs, classOk kv.2 = true)
    (v nv : JV) (hwf : wfVal v = true)
    (hev : processAttr F v = some nv) :
    flatV nv = true ∧ classOk nv = true := by
  cases v with
  | jsUndefined => simp [wfVal] at hwf
  | file f => simp [wfVal] at hwf
  | null =>
    rw [processAttr_scalar_null] at hev
    obtain rfl := (Option.some.inj hev).symm
    exact ⟨rfl, rfl⟩
  | bool b =>
    rw [processAttr_scalar_bool] at hev
    obtain rfl := (Option.some.inj hev).symm
    exact ⟨rfl, rfl⟩
  | num n =>
    rw [processAttr_scalar_num] at hev
    obtain rfl := (Option.some.inj hev).symm
    exact ⟨rfl, rfl⟩
  | str s =>
    rw [processAttr_scalar_str] at hev
    obtain rfl := (Option.some.inj hev).symm
    exact ⟨rfl, rfl⟩
  | arr es =>
    rw [processAttr_arr, Option.map_eq_some'] at hev
    obtain ⟨outs, houts, rfl⟩ := hev
    obtain ⟨henv, hcomp⟩ := wfVal_arr_elim es hwf
    rw [strapiArrayToRaW] at houts
    have hgoal : ∀ b ∈ outs, ∃ ofs, b = JV.obj ofs ∧ flatFields ofs = true := by
      by_cases hdisp : ((JV.arr es).idx0.oc "attributes").truthy = true
      · rw [if_pos hdisp] at houts
        have hwfe := (wfEnvs_mem es).mp (henv hdisp)
        refine mapM_some_all _ es outs
          (fun b => ∃ ofs, b = JV.obj ofs ∧ flatFields ofs = true) houts ?_
        intro a ha b hb
        obtain ⟨idv, afs, rfl, hid, hwfa⟩ := envElemOkM_elim a (hwfe a ha)
        obtain ⟨ofs, rfl, hflat, hclass⟩ :=
          strapiObjectToRaW_flat F hF idv afs b hid hwfa hb
        exact ⟨ofs, rfl, hflat⟩
      · rw [Bool.not_eq_true] at hdisp
        rw [hdisp] at houts
        simp only [Bool.false_eq_true, if_false] at houts
        have hwfc := (wfComps_mem es).mp (hcomp hdisp)
        refine mapM_some_all _ es outs
          (fun b => ∃ ofs, b = JV.obj ofs ∧ flatFields ofs = true) houts ?_
        intro a ha b hb
        obtain ⟨fs, rfl, hwfa⟩ := compElemOkM_elim a (hwfc a ha)
        obtain ⟨ofs, rfl, hflat, hclass⟩ := hF fs b hwfa hb
        exact ⟨ofs, rfl, hflat⟩
    constructor
    · show flatElems outs = true
      rw [flatElems_mem]
      intro e he
      obtain ⟨ofs, rfl, hf⟩ := hgoal e he
      exact hf
    · show (outs.all fun e =>
        e.isScalar || (match e with | .obj fs => flatFields fs | _ => false)) = true
      rw [List.all_eq_true]
      intro e he
      obtain ⟨ofs, rfl, hf⟩ := hgoal e he
      simp [hf]
  | obj fs =>
    rcases wfVal_obj_elim fs hwf with ⟨d, rfl, hd⟩ | ⟨hid, hwff⟩
    · rcases dataOk_elim d hd with rfl | ⟨idv, rfl, hidv⟩ |
        ⟨idv, att, rfl, hidv, hmimeF⟩ | ⟨ds, rfl, hmm, hrr⟩
      · rw [processAttr_data_null F _ (by simp [getF]) (by simp [getF])] at hev
        obtain rfl := (Option.some.inj hev).symm
        exact ⟨rfl, rfl⟩
      · rw [processAttr_rel_single F _ [("id", idv)] (by simp [getF])
          (by simp [getF]; exact (idOkB_props _ hidv).1)
          (by simp [getF]) (by simp [getF])] at hev
        obtain rfl := (Option.some.inj hev).symm
        exact ⟨(idOkB_props _ hidv).2.2.1, (idOkB_props _ hidv).2.2.2⟩
      · by_cases hmime : (att.oc "mime").truthy = true
        · obtain ⟨afs, rfl, hwfa⟩ := hmimeF hmime
          rw [processAttr_media_single F _ [("id", idv), ("attributes", .obj afs)]
            (by simp [getF])
            (by simp [getF]; exact hmime)
            (by simp [getF])] at hev
          obtain ⟨ofs, rfl, hflat, hclass⟩ :=
            strapiObjectToRaW_flat F hF idv afs nv hidv hwfa hev
          exact ⟨hflat, hflat⟩
        · rw [Bool.not_eq_true] at hmime
          rw [processAttr_rel_single F _ [("id", idv), ("attributes", att)]
            (by simp [getF])
            (by simp [getF]; exact (idOkB_props _ hidv).1)
            (by simp [getF]; exact hmime)
            (by simp [getF])] at hev
          obtain rfl := (Option.some.inj hev).symm
          exact ⟨(idOkB_props _ hidv).2.2.1, (idOkB_props _ hidv).2.2.2⟩
      · by_cases hmime : (((JV.arr ds).idx0.oc "attributes").oc "mime").truthy = true
        · rw [processAttr_media_many F _ ds (by simp [getF]) hmime,
            Option.map_eq_some'] at hev
          obtain ⟨outs, houts, rfl⟩ := hev
          have hall : ∀ b ∈ outs, ∃ ofs, b = JV.obj ofs ∧ flatFields ofs = true := by
            refine mapM_some_all _ ds outs
              (fun b => ∃ ofs, b = JV.obj ofs ∧ flatFields ofs = true) houts ?_
            intro a ha b hb
            exact mediaItem_flat a b (List.all_eq_true.mp (hmm hmime) a ha) hb
          constructor
          · show flatElems outs = true
            rw [flatElems_mem]
            intro e he
            obtain ⟨ofs, rfl, hf⟩ := hall e he
            exact hf
          · show (outs.all fun e =>
              e.isScalar || (match e with | .obj fs => flatFields fs | _ => false))
                = true
            rw [List.all_eq_true]
            intro e he
            obtain ⟨ofs, rfl, hf⟩ := hall e he
            simp [hf]
        · rw [Bool.not_eq_true] at hmime
          rw [processAttr_rel_many F _ ds (by simp [getF]) hmime (by simp [getF]),
            Option.map_eq_some'] at hev
          obtain ⟨outs, houts, rfl⟩ := hev
          have hall : ∀ b ∈ outs, b.isScalar = true ∧ flatV b = true := by
            refine mapM_some_all _ ds outs
              (fun b => b.isScalar = true ∧ flatV b = true) houts ?_
            intro a ha b hb
            exact idOf_scalar a b (List.all_eq_true.mp (hrr hmime) a ha) hb
          constructor
          · show flatElems outs = true
            rw [flatElems_mem]
            intro e he
            exact (hall e he).2
          · show (outs.all fun e =>
              e.isScalar || (match e with | .obj fs => flatFields fs | _ => false))
                = true
            rw [List.all_eq_true]
            intro e he
            simp [(hall e he).1]
    · have hdjsUndefined : getF fs "data" = .jsUndefined :=
        getF_jsUndefined_of_excluded fs "data"
          (fun kv hm => ((wfFields_mem fs).mp hwff kv hm).1)
      rw [processAttr_component F fs hdjsUndefined hid] at hev
      obtain ⟨ofs, rfl, hflat, hclass⟩ := hF fs nv hwff hev
      exact ⟨hflat, hflat⟩

/-- A well-formed attribute map flattens (at any sufficient fuel) to an
object with no `data`/`attributes` nesting, every field matching the claim's
classification. -/
theorem strapiAttributesToRa_flat_aux :
    ∀ (fuel : Nat) (fs : List (String × JV)) (out : JV),
    wfFields fs = true → strapiAttributesToRa fuel (.obj fs) = some out →
    ∃ ofs, out = JV.obj ofs ∧ flatFields ofs = true ∧
      ∀ kv ∈ ofs, classOk kv.2 = true := by
  intro fuel
  induction fuel with
  | zero =>
    intro fs out hwf hev
    simp [strapiAttributesToRa] at hev
  | succ n ih =>
    intro fs out hwf hev
    simp only [strapiAttributesToRa, keyVals, Option.pure_def, Option.bind_eq_bind,
      Option.some_bind, Option.bind_eq_some, Option.some.injEq] at hev
    obtain ⟨ofs, hfold, hout⟩ := hev
    have hall : ∀ kv ∈ ofs, kv.1 ≠ "data" ∧ kv.1 ≠ "attributes" ∧
        flatV kv.2 = true ∧ classOk kv.2 = true := by
      refine entryFold_all _
        (fun kv => kv.1 ≠ "data" ∧ kv.1 ≠ "attributes" ∧
          flatV kv.2 = true ∧ classOk kv.2 = true) fs [] ofs hfold ?_ ?_
      · intro kv h
        cases h
      · intro kv hm e he
        simp only [Option.map_eq_some'] at he
        obtain ⟨nv, hnv, rfl⟩ := he
        have hk := (wfFields_mem fs).mp hwf kv hm
        have hp := processAttr_flat (fun x => strapiAttributesToRa n x)
          (fun fs' out' hw he' => ih fs' out' hw he') kv.2 nv hk.2.2 hnv
        exact ⟨hk.1, hk.2.1, hp.1, hp.2⟩
    refine ⟨ofs, hout.symm, ?_, fun kv hm => (hall kv hm).2.2.2⟩
    rw [flatFields_mem]
    exact fun kv hm => ⟨(hall kv hm).1, (hall kv hm).2.1, (hall kv hm).2.2.1⟩

/-- C4 (amended): for a well-formed backend envelope — attribute names avoid
the reserved `data`/`attributes` keys, relations/media follow the spec's
`{data: …}` shapes with truthy scalar ids, components carry a truthy `id`,
and the attributes of media **collections** are scalar-only (single media
attributes may be arbitrary well-formed maps, since the source flattens them
recursively, but collection elements are spread verbatim: see the
counterexample) — the converter's output contains no `data`/`attributes`
nesting at any depth, and every output field is a scalar (bare id or plain
value), a flat expanded object, or an array of bare ids / flat expanded
objects. -/
theorem strapiToRa_no_nesting (fuel : Nat) (fs afs : List (String × JV))
    (outA out idv : JV) :
    (wfFields fs = true →
      strapiAttributesToRa fuel (.obj fs) = some outA →
      ∃ ofs, outA = JV.obj ofs ∧ flatFields ofs = true ∧
        ∀ kv ∈ ofs, classOk kv.2 = true) ∧
    (idOkB idv = true → wfFields afs = true →
      strapiObjectToRa fuel (.obj [("id", idv), ("attributes", .obj afs)])
        = some out →
      ∃ ofs, out = JV.obj ofs ∧ flatFields ofs = true ∧
        ∀ kv ∈ ofs, classOk kv.2 = true) := by
  constructor
  · exact fun hwf hev => strapiAttributesToRa_flat_aux fuel fs outA hwf hev
  · intro hid hwf hev
    exact strapiObjectToRaW_flat (strapiAttributesToRa fuel)
      (fun fs' out' hw he => strapiAttributesToRa_flat_aux fuel fs' out' hw he)
      idv afs out hid hwf hev

/-- Witness for C4: the amended theorem applied to a concrete envelope with a
scalar, a null relation, a single relation, a media file and a component. -/
theorem strapiToRa_no_nesting_witness :
    ∃ ofs, JV.obj [("id", JV.num 7), ("title", JV.str "t"),
        ("cover", JV.obj [("id", JV.num 3), ("mime", JV.str "image/png")]),
        ("author", JV.num 5), ("tag", JV.str "")] = JV.obj ofs ∧
      flatFields ofs = true ∧ ∀ kv ∈ ofs, classOk kv.2 = true := by
  refine (strapiToRa_no_nesting 3 []
    [("title", JV.str "t"),
     ("cover", .obj [("data", .obj [("id", JV.num 3),
        ("attributes", .obj [("mime", JV.str "image/png")])])]),
     ("author", .obj [("data", .obj [("id", JV.num 5)])]),
     ("tag", .obj [("data", JV.null)])]
    JV.jsUndefined (JV.obj [("id", JV.num 7), ("title", JV.str "t"),
        ("cover", JV.obj [("id", JV.num 3), ("mime", JV.str "image/png")]),
        ("author", JV.num 5), ("tag", JV.str "")]) (JV.num 7)).2
    (by decide) (by decide) (by decide)

/-- Counterexample to C4 as stated: elements of a media file collection are
spread verbatim (src/index.ts line 51–54), so a relation reference inside a
collection element's attributes survives as a `{data: …}` nesting in the
output; the flattening of the same attributes through a **single** media
relation (line 73–75) does flatten it.  The first conjunct evaluates the
converter on such an envelope; the second states the output still carries
the nesting; the third shows the single-media contrast. -/
theorem strapiToRa_media_array_nesting_counterexample :
    strapiObjectToRa 9 (.obj [("id", JV.num 9), ("attributes", .obj
      [("pics", .obj [("data", .arr [.obj [("id", JV.num 1),
        ("attributes", .obj [("mime", JV.str "image/png"),
          ("rel", .obj [("data", .obj [("id", JV.num 2)])])])]])])])])
      = some (.obj [("id", JV.num 9), ("pics", .arr [.obj [("id", JV.num 1),
          ("mime", JV.str "image/png"),
          ("rel", .obj [("data", .obj [("id", JV.num 2)])])]])]) ∧
    flatV (.obj [("id", JV.num 9), ("pics", .arr [.obj [("id", JV.num 1),
        ("mime", JV.str "image/png"),
        ("rel", .obj [("data", .obj [("id", JV.num 2)])])]])]) = false ∧
    strapiObjectToRa 9 (.obj [("id", JV.num 9), ("attributes", .obj
      [("pic", .obj [("data", .obj [("id", JV.num 1),
        ("attributes", .obj [("mime", JV.str "image/png"),
          ("rel", .obj [("data", .obj [("id", JV.num 2)])])])])])])])
      = some (.obj [("id", JV.num 9), ("pic", .obj [("id", JV.num 1),
          ("mime", JV.str "image/png"), ("rel", JV.num 2)])]) ∧
    flatV (.obj [("id", JV.num 9), ("pic", .obj [("id", JV.num 1),
        ("mime", JV.str "image/png"), ("rel", JV.num 2)])]) = true :=
  ⟨by decide, by decide, by decide, by decide⟩

/-- A part of the multipart `FormData` body: an appended file part
(`formData.append("files." + key, rawFile, title)`) or the final JSON `data`
part.  String serialization (JSON.stringify, multipart encoding) is
abstracted; parts carry the JavaScript values. -/
inductive BodyPart where
  | filePart (name : String) (rawFile : JV) (title : JV)
  | dataPart (v : JV)
deriving Repr

/-- The request body built by `raToStrapiObj`: a plain JSON body or a
multipart `FormData`. -/
inductive ReqBody where
  | jsonBody (v : JV)
  | formBody (parts : List BodyPart)
deriving Repr

def BodyPart.beq : BodyPart → BodyPart → Bool
  | .filePart n r t, .filePart n' r' t' => n == n' && JV.beq r r' && JV.beq t t'
  | .dataPart v, .dataPart v' => JV.beq v v'
  | _, _ => false

theorem bodyPartBeq_iff (a b : BodyPart) : BodyPart.beq a b = true ↔ a = b := by
  cases a <;> cases b <;>
    simp [BodyPart.beq, JV.beq_iff, BodyPart.filePart.injEq, BodyPart.dataPart.injEq,
      and_assoc]

instance : DecidableEq BodyPart := fun a b => decidable_of_iff _ (bodyPartBeq_iff a b)

instance : DecidableEq ReqBody := fun a b =>
  match a, b with
  | .jsonBody v, .jsonBody v' =>
    decidable_of_iff (v = v') (by simp [ReqBody.jsonBody.injEq])
  | .formBody p, .formBody p' =>
    decidable_of_iff (p = p') (by simp [ReqBody.formBody.injEq])
  | .jsonBody _, .formBody _ => isFalse (by simp)
  | .formBody _, .jsonBody _ => isFalse (by simp)

/-- `separateMultimedia` (src/index.ts lines 201–226): split the record's
fields into plain data fields and multimedia fields (a value with a truthy
`rawFile`, or an array whose first element has a truthy `mime` or
`rawFile`); `multimedia` is `none` when no multimedia key was found
(`multimedia = null` in the source). -/
def separateMultimedia (object : JV) :
    List (String × JV) × Option (List (String × JV)) :=
  let st := (forInPairs object).foldl
    (fun (st : List (String × JV) × List (String × JV)) kv =>
      let element := kv.2
      if (element.oc "rawFile").truthy then
        (st.1, setKey st.2 kv.1 element)
      else if element.isArr &&
          ((element.idx0.oc "mime").truthy || (element.idx0.oc "rawFile").truthy) then
        (st.1, setKey st.2 kv.1 element)
      else (setKey st.1 kv.1 element, st.2))
    ([], [])
  (st.1, if st.2.isEmpty then none else some st.2)

/-- `element.rawFile instanceof File`. -/
def JV.isFile : JV → Bool
  | .file _ => true
  | _ => false

/-- One iteration of the `for (const key in multimedia)` loop of
`raToStrapiObj` (src/index.ts lines 156–183), threading the accumulated
file parts and the mutable `data` object. -/
def raToStrapiKey (key : String) (element : JV)
    (st : List BodyPart × List (String × JV)) :
    Option (List BodyPart × List (String × JV)) := do
  match element with
  | .arr es => do
    let res ← es.foldlM (fun (acc : List BodyPart × List JV) f => do
        let rf ← f.sget "rawFile"
        if rf.isFile then do
          let title ← f.sget "title"
          pure (acc.1 ++ [BodyPart.filePart ("files." ++ key) rf title], acc.2)
        else do
          let idv ← f.sget "id"
          pure (acc.1, acc.2 ++ [idv])) (st.1, [])
    pure (res.1, setKey st.2 key (.arr res.2))
  | _ => do
    let rf ← element.sget "rawFile"
    if !rf.isFile && (st.2.map Prod.fst).contains key then do
      let idv ← element.sget "id"
      pure (st.1, setKey st.2 key (.arr [idv]))
    else if rf.isFile then do
      let title ← element.sget "title"
      pure (st.1 ++ [BodyPart.filePart ("files." ++ key) rf title], st.2)
    else
      pure st

/-- `raToStrapiObj` (src/index.ts lines 148–194) applied to `params.data`:
splits multimedia from plain fields; with multimedia present it builds a
`FormData` with one file part per pending local file and the JSON-encoded
plain fields as the final `data` part, otherwise a plain JSON
`{data: …}` body. -/
def raToStrapiObj (paramsData : JV) : Option ReqBody := do
  let sep := separateMultimedia paramsData
  match sep.2 with
  | some mm => do
    let st ← mm.foldlM (fun st kv => raToStrapiKey kv.1 kv.2 st) ([], sep.1)
    let d ← raEmptyAttributesToStrapi (.obj st.2)
    pure (.formBody (st.1 ++ [BodyPart.dataPart d]))
  | none => do
    let d ← raEmptyAttributesToStrapi (.obj sep.1)
    pure (.jsonBody (.obj [("data", d)]))

/-- C3, evaluated at the failing input
`{cover: {id: 7, mime: "image/png", url: "u"}, doc: {rawFile: <File>, title:
"doc.pdf"}}`: the pending local file is appended exactly once as a file part
and never as an id (as claimed), but the already-persisted **scalar** media
value `cover` is routed to the plain-data side by `separateMultimedia` (its
`rawFile` is falsy and it is not an array), so the branch at lines 171–177
that would replace it with `[element.id]` never fires — `data` and
`multimedia` have disjoint keys, so `hasOwnProperty` is always false there —
and the JSON `data` part carries the full object instead of the singleton id
array `[7]`.  A persisted media **array** (`pics`) does degenerate to an id
array, as the claim says. -/
theorem raToStrapiObj_persisted_scalar_media_eval :
    separateMultimedia (.obj [("cover", .obj [("id", .num 7),
        ("mime", .str "image/png"), ("url", .str "u")]),
      ("doc", .obj [("rawFile", .file "f.pdf"), ("title", .str "doc.pdf")])])
      = ([("cover", JV.obj [("id", JV.num 7), ("mime", JV.str "image/png"),
            ("url", JV.str "u")])],
         some [("doc", JV.obj [("rawFile", JV.file "f.pdf"),
            ("title", JV.str "doc.pdf")])]) ∧
    raToStrapiObj (.obj [("cover", .obj [("id", .num 7),
        ("mime", .str "image/png"), ("url", .str "u")]),
      ("doc", .obj [("rawFile", .file "f.pdf"), ("title", .str "doc.pdf")])])
      = some (.formBody
          [.filePart "files.doc" (JV.file "f.pdf") (JV.str "doc.pdf"),
           .dataPart (JV.obj [("cover", JV.obj [("id", JV.num 7),
             ("mime", JV.str "image/png"), ("url", JV.str "u")])])]) ∧
    raToStrapiObj (.obj [("cover", .obj [("id", .num 7),
        ("mime", .str "image/png"), ("url", .str "u")]),
      ("doc", .obj [("rawFile", .file "f.pdf"), ("title", .str "doc.pdf")])])
      ≠ some (.formBody
          [.filePart "files.doc" (JV.file "f.pdf") (JV.str "doc.pdf"),
           .dataPart (JV.obj [("cover", JV.arr [JV.num 7])])]) ∧
    raToStrapiObj (.obj [("pics", .arr [.obj [("id", .num 4), ("mime", .str "m")],
        .obj [("rawFile", .file "g.png"), ("title", .str "g.png")]])])
      = some (.formBody
          [.filePart "files.pics" (JV.file "g.png") (JV.str "g.png"),
           .dataPart (JV.obj [("pics", JV.arr [JV.num 4])])]) :=
  ⟨by decide, by decide, by decide, by decide⟩

/-- RFC 3986 unreserved characters, the only ones the `qs` library's default
value encoder leaves unencoded (modelled from the qs dependency, which is
not part of src/). -/
def qsUnreserved (c : Char) : Bool :=
  c.isAlphanum || c = '-' || c = '.' || c = '_' || c = '~'

/-- Uppercase hexadecimal digit. -/
def hexDigit (n : Nat) : Char :=
  if n < 10 then Char.ofNat (48 + n) else Char.ofNat (55 + n)

/-- UTF-8 bytes of a code point. -/
def utf8Bytes (n : Nat) : List Nat :=
  if n < 128 then [n]
  else if n < 2048 then [192 + n / 64, 128 + n % 64]
  else if n < 65536 then [224 + n / 4096, 128 + (n / 64) % 64, 128 + n % 64]
  else [240 + n / 262144, 128 + (n / 4096) % 64, 128 + (n / 64) % 64,
        128 + n % 64]

/-- Percent-encode one character as the `qs` value encoder does. -/
def pctEncodeChar (c : Char) : String :=
  if qsUnreserved c then String.mk [c]
  else ((utf8Bytes c.toNat).map (fun b =>
    String.mk ['%', hexDigit (b / 16), hexDigit (b % 16)])).foldl (· ++ ·) ""

/-- Percent-encode a string value as the `qs` value encoder does. -/
def pctEncode (s : String) : String :=
  (s.toList.map pctEncodeChar).foldl (· ++ ·) ""

mutual

/-- `key=value` tokens produced by `qs.stringify(…, {encodeValuesOnly:
true})` for one value under a key path `pre`: keys stay literal with
bracket notation, values are percent-encoded, arrays are indexed, `null`
serializes as `key=`, `undefined` is skipped.  Modelled from the qs
dependency (not in src/). -/
def qsPairs (pre : String) : JV → List String
  | .jsUndefined => []
  | .null => [pre ++ "="]
  | .bool b => [pre ++ "=" ++ (if b then "true" else "false")]
  | .num n => [pre ++ "=" ++ toString n]
  | .str s => [pre ++ "=" ++ pctEncode s]
  | .arr es => qsPairsIdx pre 0 es
  | .obj fs => qsPairsFields pre fs
  | .file _ => []

def qsPairsIdx (pre : String) (i : Nat) : List JV → List String
  | [] => []
  | v :: rest =>
    qsPairs (pre ++ "[" ++ toString i ++ "]") v ++ qsPairsIdx pre (i + 1) rest

def qsPairsFields (pre : String) : List (String × JV) → List String
  | [] => []
  | (k, v) :: rest =>
    qsPairs (pre ++ "[" ++ k ++ "]") v ++ qsPairsFields pre rest

end

/-- Top-level `qs.stringify(query, {encodeValuesOnly: true})`. -/
def qsStringify : JV → String
  | .obj fs => String.intercalate "&"
      (fs.flatMap (fun kv => qsPairs kv.1 kv.2))
  | _ => ""

/-- The query object built by `getList` (src/index.ts lines 256–263):
`{sort: [field + ":" + order], pagination: {page, pageSize: perPage},
filters: raFilterToStrapi(params.filter)}`. -/
def getListQuery (fuel : Nat) (page perPage : Int) (field ord : String)
    (filter : JV) : Option JV := do
  let filters ← raFilterToStrapi fuel filter
  pure (.obj [("sort", .arr [.str (field ++ ":" ++ ord)]),
              ("pagination", .obj [("page", .num page),
                                   ("pageSize", .num perPage)]),
              ("filters", filters)])

/-- The URL requested by `getList` (src/index.ts lines 265–269):
`` `${apiUrl}/${resource}?populate=*&${queryStringify}` ``. -/
def getListUrl (fuel : Nat) (apiUrl resource : String) (page perPage : Int)
    (field ord : String) (filter : JV) : Option String := do
  let query ← getListQuery fuel page perPage field ord filter
  pure (apiUrl ++ "/" ++ resource ++ "?populate=*&" ++ qsStringify query)

/-- The result mapping of `getList` (src/index.ts lines 271–274):
`{data: strapiArrayToRa(json.data), total: json.meta.pagination.total}`. -/
def getListRa (fuel : Nat) (json : JV) : Option JV := do
  let d ← json.sget "data"
  let es ← match d with | .arr es => some es | _ => none
  let ds ← strapiArrayToRa fuel es
  let meta ← json.sget "meta"
  let pag ← meta.sget "pagination"
  let total ← pag.sget "total"
  pure (.obj [("data", .arr ds), ("total", total)])

/-- C5 (amended): `getList` requests
`<api>/<resource>?populate=*&sort[0]=<field>%3A<order>&pagination[page]=<page>&pagination[pageSize]=<perPage>&<filter pairs>`
— pagination passes `(page, perPage)` through as a 1-indexed
`pagination[page]`/`pagination[pageSize]` pair, sort becomes the single
token `field:order` whose `:` the query serializer percent-encodes to `%3A`
in the value position (the original claim's literal `sort[0]=title:ASC` is
what differs: see the counterexample) — and maps the response to
`{data: <flattened json.data array>, total: json.meta.pagination.total}`. -/
theorem getList_request_response (fuel : Nat) (apiUrl resource : String)
    (page perPage : Int) (field ord : String) (filterJV filters : JV)
    (es ds : List JV) (t json : JV) :
    (raFilterToStrapi fuel filterJV = some filters →
      getListUrl fuel apiUrl resource page perPage field ord filterJV
        = some (apiUrl ++ "/" ++ resource ++ "?populate=*&" ++
            String.intercalate "&"
              (("sort[0]=" ++ pctEncode (field ++ ":" ++ ord)) ::
               ("pagination[page]=" ++ toString page) ::
               ("pagination[pageSize]=" ++ toString perPage) ::
               qsPairs "filters" filters))) ∧
    (json = .obj [("data", .arr es),
        ("meta", .obj [("pagination", .obj [("total", t)])])] →
      strapiArrayToRa fuel es = some ds →
      getListRa fuel json = some (.obj [("data", .arr ds), ("total", t)])) := by
  constructor
  · intro h
    simp only [getListUrl, getListQuery, h, Option.pure_def, Option.bind_eq_bind,
      Option.some_bind, qsStringify, List.flatMap_cons, List.flatMap_nil,
      qsPairs, qsPairsIdx, qsPairsFields, List.append_nil, List.nil_append,
      List.cons_append, List.singleton_append, Option.some.injEq]
    rfl
  · intro hjson hds
    subst hjson
    simp [getListRa, getF, hds]

/-- Witness for C5 at the claim's concrete call:
`getList("posts", {pagination:{page:2, perPage:10}, sort:{field:"title",
order:"ASC"}, filter:{title_q:"cat"}})` with `apiUrl = "http://api"`, and a
one-record response with `meta.pagination.total = 12`. -/
theorem getList_request_response_witness :
    getListUrl 2 "http://api" "posts" 2 10 "title" "ASC"
        (.obj [("title_q", .str "cat")])
      = some ("http://api" ++ "/" ++ "posts" ++ "?populate=*&" ++
          String.intercalate "&"
            (("sort[0]=" ++ pctEncode ("title" ++ ":" ++ "ASC")) ::
             ("pagination[page]=" ++ toString (2 : Int)) ::
             ("pagination[pageSize]=" ++ toString (10 : Int)) ::
             qsPairs "filters"
               (.obj [("title", .obj [("$containsi", .str "cat")])]))) ∧
    getListRa 2 (.obj [("data", .arr [.obj [("id", .num 1),
        ("attributes", .obj [("title", .str "cat pics")])]]),
        ("meta", .obj [("pagination", .obj [("total", .num 12)])])])
      = some (.obj [("data", .arr [.obj [("id", JV.num 1),
          ("title", JV.str "cat pics")]]), ("total", JV.num 12)]) := by
  constructor
  · exact (getList_request_response 2 "http://api" "posts" 2 10 "title" "ASC"
      (.obj [("title_q", .str "cat")])
      (.obj [("title", .obj [("$containsi", .str "cat")])])
      [] [] .jsUndefined .jsUndefined).1 (by decide)
  · exact (getList_request_response 2 "http://api" "posts" 2 10 "title" "ASC"
      (.obj [("title_q", .str "cat")])
      (.obj [("title", .obj [("$containsi", .str "cat")])])
      [.obj [("id", .num 1), ("attributes", .obj [("title", .str "cat pics")])]]
      [.obj [("id", JV.num 1), ("title", JV.str "cat pics")]]
      (.num 12)
      (.obj [("data", .arr [.obj [("id", .num 1),
        ("attributes", .obj [("title", .str "cat pics")])]]),
        ("meta", .obj [("pagination", .obj [("total", .num 12)])])])).2
      (by decide) (by decide)

/-- Counterexample to C5 as stated: the URL actually issued carries
`sort[0]=title%3AASC` — the `qs` value encoder percent-encodes the `:` of
the sort token — not the claim's literal `sort[0]=title:ASC`. -/
theorem getListUrl_encoding_counterexample :
    getListUrl 5 "http://api" "posts" 2 10 "title" "ASC"
        (.obj [("title_q", .str "cat")])
      = some "http://api/posts?populate=*&sort[0]=title%3AASC&pagination[page]=2&pagination[pageSize]=10&filters[title][$containsi]=cat" ∧
    getListUrl 5 "http://api" "posts" 2 10 "title" "ASC"
        (.obj [("title_q", .str "cat")])
      ≠ some "http://api/posts?populate=*&sort[0]=title:ASC&pagination[page]=2&pagination[pageSize]=10&filters[title][$containsi]=cat" :=
  ⟨by decide, by decide⟩

/-- An HTTP request issued through the injected `httpClient`. -/
structure Req where
  method : String
  url : String
  headers : List (String × String)
  body : Option JV
deriving Repr, DecidableEq

/-- Template-literal stringification of an id interpolated into a URL. -/
def JV.toUrlPiece : JV → String
  | .num n => toString n
  | .str s => s
  | .bool b => if b then "true" else "false"
  | .null => "null"
  | .jsUndefined => "undefined"
  | _ => ""

/-- `Promise.all` over already-settled promises: succeeds with the ordered
list of values exactly when every member succeeded; any rejection rejects
the aggregate with no partial result. -/
def promiseAll {α : Type} : List (Option α) → Option (List α)
  | [] => some []
  | o :: rest => do
    let v ← o
    let vs ← promiseAll rest
    pure (v :: vs)

/-- The PUT request `updateMany` issues for one id (src/index.ts lines
342–345): `PUT <apiUrl>/<resource>/<id>` with body
`JSON.stringify({data: params.data})` (carried here as the value). -/
def updReq (apiUrl resource : String) (id dataJV : JV) : Req :=
  ⟨"PUT", apiUrl ++ "/" ++ resource ++ "/" ++ id.toUrlPiece, [],
   some (.obj [("data", dataJV)])⟩

/-- The DELETE request `deleteMany` issues for one id (lines 371–376). -/
def delReq (apiUrl resource : String) (id : JV) : Req :=
  ⟨"DELETE", apiUrl ++ "/" ++ resource ++ "/" ++ id.toUrlPiece,
   [("Content-Type", "text/plain")], none⟩

/-- The requests fired by `updateMany`: one per id, in input order. -/
def updateManyRequests (apiUrl resource : String) (ids : List JV)
    (dataJV : JV) : List Req :=
  ids.map (fun id => updReq apiUrl resource id dataJV)

/-- The requests fired by `deleteMany`: one per id, in input order. -/
def deleteManyRequests (apiUrl resource : String) (ids : List JV) : List Req :=
  ids.map (fun id => delReq apiUrl resource id)

/-- `responses.map(({json}) => json.data.id)` (lines 347–348 and 378–379);
the property accesses can throw, so the map is fallible. -/
def echoedIds : List JV → Option (List JV)
  | [] => some []
  | json :: rest => do
    let d ← json.sget "data"
    let idv ← d.sget "id"
    let tail ← echoedIds rest
    pure (idv :: tail)

/-- `updateMany` (src/index.ts lines 339–349): `Promise.all` over one PUT per
id, then collect `json.data.id` per response.  `client` models the injected
`httpClient` as a map from requests to response `json` (`none` =
rejection). -/
def updateMany (client : Req → Option JV) (apiUrl resource : String)
    (ids : List JV) (dataJV : JV) : Option (List JV) := do
  let responses ← promiseAll
    ((updateManyRequests apiUrl resource ids dataJV).map client)
  echoedIds responses

/-- `deleteMany` (src/index.ts lines 368–380). -/
def deleteMany (client : Req → Option JV) (apiUrl resource : String)
    (ids : List JV) : Option (List JV) := do
  let responses ← promiseAll
    ((deleteManyRequests apiUrl resource ids).map client)
  echoedIds responses

theorem promiseAll_map_some {α β : Type} (f : α → Option β) (g : α → β)
    (l : List α) (hf : ∀ a ∈ l, f a = some (g a)) :
    promiseAll (l.map f) = some (l.map g) := by
  induction l with
  | nil => rfl
  | cons a rest ih =>
    simp only [List.map_cons, promiseAll, hf a (List.mem_cons_self _ _),
      Option.pure_def, Option.bind_eq_bind, Option.some_bind,
      ih (fun a' h => hf a' (List.mem_cons_of_mem _ h))]

theorem promiseAll_map_none {α β : Type} (f : α → Option β) (l : List α)
    (a : α) (hm : a ∈ l) (hf : f a = none) :
    promiseAll (l.map f) = none := by
  induction l with
  | nil => cases hm
  | cons a0 rest ih =>
    rcases List.mem_cons.mp hm with rfl | hmem
    · simp [promiseAll, hf]
    · simp only [List.map_cons, promiseAll, Option.pure_def, Option.bind_eq_bind]
      cases hfa0 : f a0 with
      | none => rfl
      | some v => simp [ih hmem]

theorem mapM_map_some {α β : Type} (h : α → Option β) (g : α → β) (l : List α)
    (hh : ∀ a ∈ l, h a = some (g a)) : l.mapM h = some (l.map g) := by
  induction l with
  | nil => rfl
  | cons a rest ih =>
    simp only [List.mapM_cons, hh a (List.mem_cons_self _ _),
      ih (fun a' h' => hh a' (List.mem_cons_of_mem _ h')), Option.pure_def,
      Option.bind_eq_bind, Option.some_bind, List.map_cons]

theorem echoedIds_map (vals : List JV) (echo : JV → JV) :
    echoedIds (vals.map (fun id => JV.obj [("data", .obj [("id", echo id)])]))
      = some (vals.map echo) := by
  induction vals with
  | nil => rfl
  | cons a rest ih =>
    simp only [List.map_cons, echoedIds, JV.sget_obj, Option.pure_def,
      Option.bind_eq_bind, Option.some_bind, ih]
    simp [getF]

/-- C8: `updateMany` and `deleteMany` issue exactly one request per id, in
input order; when every per-id request succeeds with a response echoing an
id, the aggregate succeeds and its data list carries the echoed ids in input
order; a single rejected request rejects the whole batch (`none`), with no
partial result. -/
theorem updateMany_deleteMany_batch (client : Req → Option JV)
    (apiUrl resource : String) (ids : List JV) (dataJV : JV)
    (echo : JV → JV) (idbad : JV) :
    (updateManyRequests apiUrl resource ids dataJV
      = ids.map (fun id => updReq apiUrl resource id dataJV)) ∧
    ((∀ id ∈ ids, client (updReq apiUrl resource id dataJV)
        = some (.obj [("data", .obj [("id", echo id)])])) →
      updateMany client apiUrl resource ids dataJV = some (ids.map echo)) ∧
    (idbad ∈ ids → client (updReq apiUrl resource idbad dataJV) = none →
      updateMany client apiUrl resource ids dataJV = none) ∧
    (deleteManyRequests apiUrl resource ids
      = ids.map (fun id => delReq apiUrl resource id)) ∧
    ((∀ id ∈ ids, client (delReq apiUrl resource id)
        = some (.obj [("data", .obj [("id", echo id)])])) →
      deleteMany client apiUrl resource ids = some (ids.map echo)) ∧
    (idbad ∈ ids → client (delReq apiUrl resource idbad) = none →
      deleteMany client apiUrl resource ids = none) := by
  have hrequ : (updateManyRequests apiUrl resource ids dataJV).map client
      = ids.map (fun id => client (updReq apiUrl resource id dataJV)) := by
    simp [updateManyRequests, List.map_map, Function.comp]
  have hreqd : (deleteManyRequests apiUrl resource ids).map client
      = ids.map (fun id => client (delReq apiUrl resource id)) := by
    simp [deleteManyRequests, List.map_map, Function.comp]
  refine ⟨rfl, ?_, ?_, rfl, ?_, ?_⟩
  · intro hcl
    simp only [updateMany, hrequ,
      promiseAll_map_some _
        (fun id => JV.obj [("data", JV.obj [("id", echo id)])]) ids hcl,
      Option.pure_def, Option.bind_eq_bind, Option.some_bind]
    exact echoedIds_map ids echo
  · intro hm hcl
    simp only [updateMany, hrequ,
      promiseAll_map_none
        (fun id => client (updReq apiUrl resource id dataJV)) ids idbad hm hcl,
      Option.pure_def, Option.bind_eq_bind, Option.none_bind]
  · intro hcl
    simp only [deleteMany, hreqd,
      promiseAll_map_some _
        (fun id => JV.obj [("data", JV.obj [("id", echo id)])]) ids hcl,
      Option.pure_def, Option.bind_eq_bind, Option.some_bind]
    exact echoedIds_map ids echo
  · intro hm hcl
    simp only [deleteMany, hreqd,
      promiseAll_map_none
        (fun id => client (delReq apiUrl resource id)) ids idbad hm hcl,
      Option.pure_def, Option.bind_eq_bind, Option.none_bind]

/-- Witness for C8: a concrete client over ids `[1, 2]` that echoes each id,
and a client that rejects id `2`. -/
theorem updateMany_deleteMany_batch_witness :
    updateMany
      (fun r => if r.url = "http://api/posts/2"
                then some (.obj [("data", .obj [("id", .num 2)])])
                else some (.obj [("data", .obj [("id", .num 1)])]))
      "http://api" "posts" [.num 1, .num 2] (.obj [("t", .str "x")])
      = some [JV.num 1, JV.num 2] ∧
    deleteMany (fun r => if r.url = "http://api/posts/2" then none
                else some (.obj [("data", .obj [("id", .num 1)])]))
      "http://api" "posts" [.num 1, .num 2] = none := by
  constructor
  · exact ((updateMany_deleteMany_batch
      (fun r => if r.url = "http://api/posts/2"
                then some (.obj [("data", .obj [("id", .num 2)])])
                else some (.obj [("data", .obj [("id", .num 1)])]))
      "http://api" "posts" [.num 1, .num 2] (.obj [("t", .str "x")])
      (fun id => id) JV.jsUndefined).2.1 (by decide)).trans (by decide)
  · exact (updateMany_deleteMany_batch
      (fun r => if r.url = "http://api/posts/2" then none
                else some (.obj [("data", .obj [("id", .num 1)])]))
      "http://api" "posts" [.num 1, .num 2] JV.jsUndefined
      (fun id => id) (JV.num 2)).2.2.2.2.2 (by decide) (by decide)

/-- `delete`'s response mapping (src/index.ts line 366):
`({json}) => ({data: json})` — the raw response json, unflattened. -/
def deleteRa (json : JV) : JV :=
  .obj [("data", json)]

/-- `getOne`/`update`/`create`'s response mapping (lines 279–281, 336, 357):
`({json}) => ({data: strapiObjectToRa(json.data)})`. -/
def singleRecordRa (fuel : Nat) (json : JV) : Option JV := do
  let d ← json.sget "data"
  let rec0 ← strapiObjectToRa fuel d
  pure (.obj [("data", rec0)])

/-- C9 (amended): `delete` wraps the backend's **raw** response json as
`{data: json}` — the whole envelope, `meta` included — whereas the other
single-record operations return `{data: strapiObjectToRa(json.data)}`, the
flattened record; the two differ on any enveloped response (see the
counterexample). -/
theorem delete_returns_raw_json (fuel : Nat) (json d rec0 : JV) :
    deleteRa json = .obj [("data", json)] ∧
    (json.sget "data" = some d → strapiObjectToRa fuel d = some rec0 →
      singleRecordRa fuel json = some (.obj [("data", rec0)])) := by
  refine ⟨rfl, ?_⟩
  intro hd hrec
  simp [singleRecordRa, hd, hrec]

/-- Witness for C9 at a concrete response json. -/
theorem delete_returns_raw_json_witness :
    deleteRa (.obj [("data", .obj [("id", .num 1),
        ("attributes", .obj [("t", .str "x")])]), ("meta", .obj [])])
      = .obj [("data", .obj [("data", .obj [("id", .num 1),
          ("attributes", .obj [("t", .str "x")])]), ("meta", .obj [])])] ∧
    singleRecordRa 3 (.obj [("data", .obj [("id", .num 1),
        ("attributes", .obj [("t", .str "x")])]), ("meta", .obj [])])
      = some (.obj [("data", .obj [("id", JV.num 1), ("t", JV.str "x")])]) := by
  constructor
  · exact (delete_returns_raw_json 3 _ .jsUndefined .jsUndefined).1
  · exact (delete_returns_raw_json 3
      (.obj [("data", .obj [("id", .num 1),
        ("attributes", .obj [("t", .str "x")])]), ("meta", .obj [])])
      (.obj [("id", .num 1), ("attributes", .obj [("t", .str "x")])])
      (.obj [("id", JV.num 1), ("t", JV.str "x")])).2 (by decide) (by decide)

/-- Counterexample to C9 as stated: on the enveloped response
`{data: {id: 1, attributes: {t: "x"}}, meta: {}}`, `delete` returns the raw
envelope as its `data`, which is not the single-record shape
`{id: 1, t: "x"}` that `getOne`/`update`/`create` return. -/
theorem delete_raw_json_counterexample :
    deleteRa (.obj [("data", .obj [("id", .num 1),
        ("attributes", .obj [("t", .str "x")])]), ("meta", .obj [])])
      = .obj [("data", .obj [("data", .obj [("id", .num 1),
          ("attributes", .obj [("t", .str "x")])]), ("meta", .obj [])])] ∧
    deleteRa (.obj [("data", .obj [("id", .num 1),
        ("attributes", .obj [("t", .str "x")])]), ("meta", .obj [])])
      ≠ .obj [("data", .obj [("id", JV.num 1), ("t", JV.str "x")])] :=
  ⟨by decide, by decide⟩
